import Mathlib

/-!
Shallow embedding of the crawl / frontier-store core of the sap-assistant
repository, together with theorems settling the specification claims.

Source files embedded:
* `src/model/scraping_control/archiving/website_database_class.py` (namespace `WDC`)
* `src/model/scraping_control/website_archiver_database.py` (namespace `WAD`)
* `src/model/scraping_control/archiving/website_archiver.py` (namespace `Arch`)
* `src/model/scraping_control/archiving/requests_website_archiver.py` (namespace `RWA`)

Database tables are lists of rows in insertion order (rows in these modules are
never physically deleted except by `relink_temporary_links`, and queries carry
no ORDER BY, so `.first()` is the head of the list in insertion order).
The `created`/`updated` timestamp columns are omitted: no claim concerns them.
-/

namespace SapAssistant

/-- Update the first element of a list satisfying `p` by `f`, leaving all other
elements unchanged.  This models a SQLAlchemy `query(...).filter(...).first()`
followed by attribute assignments on the returned row. -/
def updateFirst {α : Type} (l : List α) (p : α → Bool) (f : α → α) : List α :=
  match l with
  | [] => []
  | x :: xs => if p x then f x :: xs else x :: updateFirst xs p f

/-- Substring machinery: Python's `pat in s` test on strings. -/
def listHasPre : List Char → List Char → Bool
  | _, [] => true
  | [], _ :: _ => false
  | c :: cs, p :: ps => (c == p) && listHasPre cs ps

def listContainsSub : List Char → List Char → Bool
  | l, pat =>
    match l with
    | [] => pat.isEmpty
    | _ :: tl => listHasPre l pat || listContainsSub tl pat

/-- Python's `pat in s` substring containment. -/
def containsSub (s pat : String) : Bool := listContainsSub s.data pat.data

/-- Python's `s.split("/")[-1]`: the characters after the last slash
(the whole string when there is no slash). -/
def splitOnSlash : List Char → List (List Char)
  | [] => [[]]
  | c :: tl =>
    let r := splitOnSlash tl
    if c == '/' then [] :: r
    else
      match r with
      | [] => [[c]]
      | h :: t => (c :: h) :: t

def lastSegment (s : String) : List Char := (splitOnSlash s.data).getLastD []

/-- Python's `link.replace("\x5c", "")` (remove every backslash). -/
def stripBackslashes (s : String) : String :=
  ⟨s.data.filter (fun c => c ≠ '\\')⟩

/-- Python's `s.startswith(pre)`. -/
def strStartsWith (s pre : String) : Bool := listHasPre s.data pre.data

/-- `s[n:]` — drop the first `n` characters. -/
def strDrop (s : String) (n : Nat) : String := ⟨s.data.drop n⟩

/-- Python `dict` assignment `d[k] = v` on an insertion-ordered association
list (updates in place, appends when absent). -/
def dictInsert (l : List (String × String)) (k v : String) : List (String × String) :=
  match l with
  | [] => [(k, v)]
  | (k', v') :: tl => if k' = k then (k', v) :: tl else (k', v') :: dictInsert tl k v

namespace Url

/-- The components of `urllib.parse.urlparse` used by the repository:
scheme, netloc and path (query and fragment are split off and dropped). -/
structure UrlParts where
  scheme : String
  netloc : String
  path : String
  deriving Repr, DecidableEq

def isSchemeChar (c : Char) : Bool :=
  c.isAlphanum || c == '+' || c == '-' || c == '.'

/-- `urllib.parse.urlparse`, restricted to scheme/netloc/path:
the scheme is the (lower-cased) prefix before the first `:` when it starts
with a letter and consists of scheme characters; the netloc follows a leading
`//` and runs to the next `/`, `?` or `#`; the path is the remainder with
fragment (`#...`) and query (`?...`) removed. -/
def urlparse (url : String) : UrlParts :=
  let cs := url.data
  let schemeSplit : List Char × List Char :=
    match cs.findIdx? (· == ':') with
    | some i =>
      if 0 < i ∧ (cs.headD ' ').isAlpha ∧ (cs.take i).all isSchemeChar then
        ((cs.take i).map Char.toLower, cs.drop (i + 1))
      else ([], cs)
    | none => ([], cs)
  let rest := schemeSplit.2
  let netlocSplit : List Char × List Char :=
    if rest.take 2 = ['/', '/'] then
      let after := rest.drop 2
      (after.takeWhile (fun c => !(c == '/' || c == '?' || c == '#')),
       after.dropWhile (fun c => !(c == '/' || c == '?' || c == '#')))
    else ([], rest)
  let pathChars := (netlocSplit.2.takeWhile (· ≠ '#')).takeWhile (· ≠ '?')
  { scheme := ⟨schemeSplit.1⟩, netloc := ⟨netlocSplit.1⟩, path := ⟨pathChars⟩ }

end Url

/-! ## `website_database_class.py` — the frontier / link-graph store.

Rows keep the columns the claims touch; `inactive` is the tombstone CHAR
column (`""` = active, non-empty = tombstoned).  Autoincrement ids are the
row's position at insertion time (rows of this module are never deleted). -/

namespace WDC

structure Page where
  page_id : Nat
  page_url : String
  inactive : String
  deriving Repr, DecidableEq

structure Asset where
  asset_id : Nat
  asset_url : String
  asset_type : String
  inactive : String
  deriving Repr, DecidableEq

structure PageLink where
  link_id : Nat
  source_page_url : String
  target_page_url : String
  followed : Bool
  inactive : String
  deriving Repr, DecidableEq

structure AssetLink where
  link_id : Nat
  source_page_url : String
  target_asset_url : String
  inactive : String
  deriving Repr, DecidableEq

/-- The value stored in the INTEGER `raw_pages.page_id` column.
`register_page` inserts the page *URL string* into it (`page_id=page_url`);
under SQLite affinity rules a non-numeric TEXT value never compares equal
to an INTEGER, which the match predicate below reflects. -/
inductive RawRef where
  | intId (n : Nat)
  | textId (s : String)
  deriving Repr, DecidableEq

def RawRef.matchesInt : RawRef → Nat → Bool
  | .intId n, m => n == m
  | .textId _, _ => false

structure RawPage where
  instance_id : Nat
  page_id : RawRef
  raw : Option String
  path : Option String
  inactive : String
  deriving Repr, DecidableEq

structure RawAsset where
  instance_id : Nat
  asset_id : Nat
  raw : Option String
  encoding : Option String
  extension : Option String
  path : Option String
  inactive : String
  deriving Repr, DecidableEq

structure DB where
  pages : List Page
  assets : List Asset
  page_network : List PageLink
  asset_network : List AssetLink
  raw_pages : List RawPage
  raw_assets : List RawAsset
  deriving Repr, DecidableEq

inductive TargetType where
  | page
  | asset
  deriving Repr, DecidableEq

/-- `WebsiteDatabase.register_page`. -/
def register_page (s : DB) (page_url : String)
    (page_content page_path : Option String) : DB :=
  let found := s.pages.find? (fun p => p.page_url == page_url)
  let pages1 :=
    match found with
    | none => s.pages ++ [{ page_id := s.pages.length, page_url := page_url, inactive := "" }]
    | some _ =>
      updateFirst s.pages (fun p => p.page_url == page_url)
        (fun p => if p.inactive ≠ "" then { p with inactive := "" } else p)
  let raw1 :=
    if page_content.isSome || page_path.isSome then
      let pid := match found with
        | none => s.pages.length
        | some p => p.page_id
      (s.raw_pages.map (fun r =>
        if r.page_id.matchesInt pid && r.inactive == "" then { r with inactive := "x" } else r))
      ++ [{ instance_id := s.raw_pages.length, page_id := RawRef.textId page_url,
            raw := page_content, path := page_path, inactive := "" }]
    else s.raw_pages
  { s with pages := pages1, raw_pages := raw1 }

/-- `WebsiteDatabase.register_asset`.  Returns `none` when `source_url` is
given but no page row with that URL exists: the Python code then dereferences
`source_page.inactive` on `None` and raises `AttributeError`. -/
def register_asset (s : DB) (source_url : Option String) (asset_url asset_type : String)
    (asset_content asset_encoding asset_extension asset_path : Option String) :
    Option DB :=
  let foundAsset := s.assets.find? (fun a => a.asset_url == asset_url)
  let assets1 :=
    match foundAsset with
    | none => s.assets ++ [{ asset_id := s.assets.length, asset_url := asset_url,
                             asset_type := asset_type, inactive := "" }]
    | some _ =>
      updateFirst s.assets (fun a => a.asset_url == asset_url)
        (fun a => if a.inactive ≠ "" then { a with inactive := "" } else a)
  let aid := match foundAsset with
    | none => s.assets.length
    | some a => a.asset_id
  let raw1 :=
    if asset_content.isSome || asset_path.isSome then
      (s.raw_assets.map (fun r =>
        if r.asset_id == aid && r.inactive == "" then { r with inactive := "x" } else r))
      ++ [{ instance_id := s.raw_assets.length, asset_id := aid,
            raw := asset_content,
            encoding := if asset_content.isSome then asset_encoding else none,
            extension := if asset_content.isSome then asset_extension else none,
            path := asset_path, inactive := "" }]
    else s.raw_assets
  match source_url with
  | none => some { s with assets := assets1, raw_assets := raw1 }
  | some su =>
    match s.pages.find? (fun p => p.page_url == su) with
    | none => none
    | some sp =>
      let pages1 := updateFirst s.pages (fun p => p.page_url == su)
        (fun p => if p.inactive ≠ "" then { p with inactive := "" } else p)
      let linkPred := fun (L : AssetLink) =>
        L.source_page_url == sp.page_url && L.target_asset_url == asset_url
      let alinks1 :=
        match s.asset_network.find? linkPred with
        | none => s.asset_network ++
            [{ link_id := s.asset_network.length, source_page_url := sp.page_url,
               target_asset_url := asset_url, inactive := "" }]
        | some _ =>
          updateFirst s.asset_network linkPred
            (fun L => if L.inactive ≠ "" then { L with inactive := "" } else L)
      some { s with assets := assets1, raw_assets := raw1,
                    pages := pages1, asset_network := alinks1 }

/-- `WebsiteDatabase.register_link`.  Returns `(link is None, state)`:
`true` iff a new edge was created. -/
def register_link (s : DB) (source_url target_url : String) (target_type : TargetType) :
    Bool × DB :=
  match target_type with
  | .page =>
    let pred := fun (L : PageLink) =>
      L.source_page_url == source_url && L.target_page_url == target_url
    match s.page_network.find? pred with
    | none =>
      (true, { s with page_network := s.page_network ++
        [{ link_id := s.page_network.length, source_page_url := source_url,
           target_page_url := target_url, followed := false, inactive := "" }] })
    | some _ =>
      let net1 := updateFirst s.page_network pred (fun L => { L with inactive := "" })
      (false, { s with page_network := net1 })
  | .asset =>
    let pred := fun (L : AssetLink) =>
      L.source_page_url == source_url && L.target_asset_url == target_url
    match s.asset_network.find? pred with
    | none =>
      (true, { s with asset_network := s.asset_network ++
        [{ link_id := s.asset_network.length, source_page_url := source_url,
           target_asset_url := target_url, inactive := "" }] })
    | some _ =>
      let net1 := updateFirst s.asset_network pred (fun L => { L with inactive := "" })
      (false, { s with asset_network := net1 })

/-- The per-row effect of the marking phases of `get_next_url`: a row is
flipped to `followed=True` when it is not yet followed and its target is `t`. -/
def markOne (t : String) (e : PageLink) : PageLink :=
  if e.followed == false && e.target_page_url == t
  then { e with followed := true } else e

/-- Phase of `get_next_url` that flips every not-yet-followed edge with the
given target to `followed=True`. -/
def markTargetFollowed (l : List PageLink) (t : String) : List PageLink :=
  l.map (markOne t)

def countUnfollowed (l : List PageLink) : Nat :=
  (l.filter (fun e => e.followed == false)).length

/-- The `while next_link is None` selection loop of `get_next_url`:
pick the first unfollowed edge; when its target already has a followed
inbound edge, flip all its unfollowed siblings and repeat; otherwise return
its target URL (leaving the chosen edge itself untouched). -/
def nextUrlLoop : Nat → List PageLink → Option String × List PageLink
  | 0, l => (none, l)
  | fuel + 1, l =>
    match l.find? (fun e => e.followed == false) with
    | none => (none, l)
    | some e =>
      if l.any (fun x => x.followed && x.target_page_url == e.target_page_url) then
        nextUrlLoop fuel (markTargetFollowed l e.target_page_url)
      else
        (some e.target_page_url, l)

/-- `WebsiteDatabase.get_next_url`. -/
def get_next_url (s : DB) (page_url : String) : Option String × DB :=
  let l1 := markTargetFollowed s.page_network page_url
  let res := nextUrlLoop (countUnfollowed l1 + 1) l1
  (res.1, { s with page_network := res.2 })

/-- The filter of `check_for_existence` compares the TEXT url column of the
`{target_type}s` table with the boolean constant `False`
(`url_column == False`): no stored URL string ever satisfies it. -/
def urlColumnEqualsFalseConst (url_value : String) : Bool := false

/-- `WebsiteDatabase.check_for_existence`: a query over `page_network`
cross-joined with the target-type table, filtered by
`url_column == False && inactive == ""`; returns whether a row was found. -/
def check_for_existence (s : DB) (url : String) (target_type : TargetType) : Bool :=
  let urlRows : List (String × String) :=
    match target_type with
    | .page => s.pages.map (fun p => (p.page_url, p.inactive))
    | .asset => s.assets.map (fun a => (a.asset_url, a.inactive))
  s.page_network.length != 0 &&
    urlRows.any (fun r => urlColumnEqualsFalseConst r.1 && r.2 == "")

end WDC

/-! ## `website_archiver_database.py` — `relink_temporary_links`.

In this module the `page_network` table is keyed by page ids and has no
`followed` column; `external_page_network` carries a raw target URL string. -/

namespace WAD

structure WPage where
  page_id : Nat
  page_url : String
  inactive : String
  deriving Repr, DecidableEq

structure WPageLink where
  link_id : Nat
  source_page_id : Nat
  target_page_id : Nat
  inactive : String
  deriving Repr, DecidableEq

structure WExternalLink where
  link_id : Nat
  source_page_id : Nat
  target_page_url : String
  inactive : String
  deriving Repr, DecidableEq

structure WDB where
  pages : List WPage
  page_network : List WPageLink
  external_page_network : List WExternalLink
  deriving Repr, DecidableEq

/-- One iteration of the `relink_temporary_links` loop: when the temporary
link's target URL matches a known page, reactivate the equivalent internal
edge or create it. -/
def relinkOne (pages : List WPage) (net : List WPageLink) (t : WExternalLink) :
    List WPageLink :=
  match pages.find? (fun p => p.page_url == t.target_page_url) with
  | none => net
  | some pg =>
    let pred := fun (L : WPageLink) =>
      L.source_page_id == t.source_page_id && L.target_page_id == pg.page_id
    match net.find? pred with
    | none => net ++ [{ link_id := net.length, source_page_id := t.source_page_id,
                        target_page_id := pg.page_id, inactive := "" }]
    | some _ => updateFirst net pred (fun L => { L with inactive := "" })

/-- `relink_temporary_links`: every temporary link whose target matches a
known page url is transferred into `page_network` and deleted from
`external_page_network`. -/
def relink_temporary_links (s : WDB) : WDB :=
  { pages := s.pages,
    page_network := s.external_page_network.foldl (relinkOne s.pages) s.page_network,
    external_page_network := s.external_page_network.filter
      (fun t => (s.pages.find? (fun p => p.page_url == t.target_page_url)).isNone) }

end WAD

/-! ## `website_archiver.py` — the abstract archiver base class. -/

namespace Arch

/-- `WebsiteArchiver.check_for_existing_asset`: its body evaluates
`self.database.check_for_existence(...)` but never returns the result, so the
Python method always returns `None` despite its declared `bool` contract. -/
def check_for_existing_asset (s : WDC.DB) (asset_url : String) : Option Bool :=
  let _ := WDC.check_for_existence s asset_url WDC.TargetType.asset
  none

/-- `WebsiteArchiver.fix_link`.  The scheme cache `self.schemas` is an
insertion-ordered association list.  `none` models the `KeyError` raised by
`self.schemas[parsed_base.netloc]` when the key is absent; otherwise the
result carries the updated cache and the fixed link. -/
def fix_link (schemas : List (String × String)) (current_url link : String) :
    Option (List (String × String) × String) :=
  let pl := Url.urlparse link
  let step :
      Option (List (String × String) × String) :=
    if pl.netloc = "" then
      let pb := Url.urlparse current_url
      let tail := if strStartsWith link "/" then strDrop link 1 else link
      if pb.scheme ≠ "" then
        some (dictInsert schemas pb.netloc pb.scheme,
              pb.scheme ++ "://" ++ pb.netloc ++ "/" ++ tail)
      else
        match schemas.lookup pb.netloc with
        | none => none
        | some sch => some (schemas, sch ++ "://" ++ pb.netloc ++ "/" ++ tail)
    else if pl.scheme = "" then
      let pb := Url.urlparse current_url
      let tail := if strStartsWith link "//" then strDrop link 2 else link
      if pb.scheme ≠ "" then
        some (dictInsert schemas pb.netloc pb.scheme, pb.scheme ++ "://" ++ tail)
      else
        match schemas.lookup pb.netloc with
        | none => none
        | some sch => some (schemas, sch ++ "://" ++ tail)
    else
      some (schemas, link)
  step.map (fun r => (r.1, stripBackslashes r.2))

end Arch

/-! ## `requests_website_archiver.py` — the requests-based engine. -/

namespace RWA

/-- The asset/page bucketing test of `_handle_next_page`: a link is moved to
`target_assets` iff `"." in urlparse(link).path.split("/")[-1]` and neither
`".html"` nor `".php"` occurs in the lower-cased final segment. -/
def is_asset_link (link : String) : Bool :=
  let seg := lastSegment (Url.urlparse link).path
  listContainsSub seg ['.'] &&
  !(listContainsSub (seg.map Char.toLower) ".html".data) &&
  !(listContainsSub (seg.map Char.toLower) ".php".data)

/-- Observables of `_retry_with_new_identity`: the status code of the
response it returns, how many requests it issued, whether a fresh proxy was
requested, and whether the final `else` branch issued yet another request
with a random user-agent.  `fetch k` is the status of the `k`-th GET issued
inside the method (the method's own exceptions are out of scope here). -/
structure RotationResult where
  status : Nat
  requestsMade : Nat
  proxyRefreshed : Bool
  randomUaFetch : Bool
  deriving Repr, DecidableEq

/-- `_retry_with_new_identity`: one GET with the fixed alternate user-agent;
if it is not 200 and the proxy mode is the string `"random"`, refresh the
proxy and return a second GET; if it is not 200 otherwise, return it; if it
*is* 200, the final line's inverted condition discards it and returns one
more GET made with a random user-agent. -/
def retry_with_new_identity (proxies : Option String) (fetch : Nat → Nat) :
    RotationResult :=
  let r0 := fetch 0
  if r0 ≠ 200 ∧ proxies = some "random" then
    { status := fetch 1, requestsMade := 2, proxyRefreshed := true, randomUaFetch := false }
  else if r0 ≠ 200 then
    { status := r0, requestsMade := 1, proxyRefreshed := false, randomUaFetch := false }
  else
    { status := fetch 1, requestsMade := 2, proxyRefreshed := false, randomUaFetch := true }

/-- Observables of `_handle_next_page` on the plain-status path (no transport
exception): the first GET's status, the rotation attempt if any, whether the
response was processed (page registered, links extracted), and the failed-URL
set after the call.  On this path the code never touches `self.failed`. -/
structure PageStep where
  finalStatus : Nat
  rotation : Option RotationResult
  processed : Bool
  failed : List String
  deriving Repr, DecidableEq

def handle_next_page_status (proxies : Option String) (fetch : Nat → Nat)
    (failed : List String) : PageStep :=
  let r0 := fetch 0
  if r0 = 200 then
    { finalStatus := 200, rotation := none, processed := true, failed := failed }
  else
    let rot := retry_with_new_identity proxies (fun k => fetch (k + 1))
    { finalStatus := rot.status, rotation := some rot,
      processed := decide (rot.status = 200), failed := failed }

/-- Observables of the `requests.exceptions.ConnectionError` handler of
`_request_page`: `connUp k` is the result of the `k`-th
`internet_utility.check_connection()` probe. -/
structure OutageOutcome where
  dumped : Bool
  sleeps : Nat
  retriedSameUrl : Bool
  failedAdded : Bool
  deriving Repr, DecidableEq

/-- The `while not internet_utility.check_connection() and
self._cache["reconnect_retries"] < tries:` loop, with its condition exactly
as written in the source (the comparison is `reconnect_retries < tries`).
Returns the final value of `tries` (= number of sleep iterations). -/
def outage_wait_loop (connUp : Nat → Bool) (reconnect_retries : Int) :
    Nat → Nat → Nat
  | 0, tries => tries
  | fuel + 1, tries =>
    if !(connUp (tries + 1)) && decide (reconnect_retries < (tries : Int)) then
      outage_wait_loop connUp reconnect_retries fuel (tries + 1)
    else tries

/-- The `ConnectionError` branch of `_request_page`: dump state, then —
if the first probe reports no connectivity — run the wait loop and retry the
same URL via `self._handle_next_page`; otherwise add the URL to `failed`. -/
def connection_error_handler (connUp : Nat → Bool) (reconnect_retries : Int)
    (fuel : Nat) : OutageOutcome :=
  if !(connUp 0) then
    { dumped := true,
      sleeps := outage_wait_loop connUp reconnect_retries fuel 0,
      retriedSameUrl := true, failedAdded := false }
  else
    { dumped := true, sleeps := 0, retriedSameUrl := false, failedAdded := true }

end RWA

/-! ## Relations used by the invariant statements. -/

/-- A transition of one `PageLink` row in which at most the `followed` flag is
raised. -/
def MarkStep (a b : WDC.PageLink) : Prop :=
  b = a ∨ b = { a with followed := true }

/-- Pointwise `MarkStep` between two snapshots of the `page_network` table. -/
def MarkedOnly (l1 l2 : List WDC.PageLink) : Prop := List.Forall₂ MarkStep l1 l2

/-- A `PageLink` row keeps its identity columns and its `followed` flag never
drops from `true` to `false`. -/
def RowMono (a b : WDC.PageLink) : Prop :=
  b.link_id = a.link_id ∧ b.source_page_url = a.source_page_url ∧
  b.target_page_url = a.target_page_url ∧ (a.followed = true → b.followed = true)

/-- `l2` extends `l1`: existing rows stay at their position and are related by
`R`; new rows may only be appended. -/
def RowsExtend {α : Type} (R : α → α → Prop) (l1 l2 : List α) : Prop :=
  l1.length ≤ l2.length ∧ List.Forall₂ R l1 (l2.take l1.length)

/-- A `WAD.WPageLink` row keeps its identity columns (its table has no
`followed` column at all). -/
def WRowIds (a b : WAD.WPageLink) : Prop :=
  b.link_id = a.link_id ∧ b.source_page_id = a.source_page_id ∧
  b.target_page_id = a.target_page_id

/-! ## Concrete states used as counterexamples and witnesses. -/

/-- One pending frontier edge `a → b`. -/
def exOneEdge : WDC.DB :=
  { pages := [], assets := [],
    page_network := [{ link_id := 0, source_page_url := "a", target_page_url := "b",
                       followed := false, inactive := "" }],
    asset_network := [], raw_pages := [], raw_assets := [] }

/-- A followed edge `a → b`, a pending duplicate `c → b` and a pending edge
`a → d`. -/
def exDupEdges : WDC.DB :=
  { pages := [], assets := [],
    page_network := [
      { link_id := 0, source_page_url := "a", target_page_url := "b",
        followed := true, inactive := "" },
      { link_id := 1, source_page_url := "c", target_page_url := "b",
        followed := false, inactive := "" },
      { link_id := 2, source_page_url := "a", target_page_url := "d",
        followed := false, inactive := "" }],
    asset_network := [], raw_pages := [], raw_assets := [] }

/-- A database with one tombstoned page (for the registration witnesses). -/
def exPageDB : WDC.DB :=
  { pages := [{ page_id := 0, page_url := "http://ex.test/", inactive := "x" }],
    assets := [], page_network := [], asset_network := [],
    raw_pages := [], raw_assets := [] }

/-- A `WAD` state with one page, one matching and one non-matching temporary
link. -/
def exWDB : WAD.WDB :=
  { pages := [{ page_id := 5, page_url := "p", inactive := "" }],
    page_network := [],
    external_page_network := [
      { link_id := 0, source_page_id := 9, target_page_url := "p", inactive := "" },
      { link_id := 1, source_page_id := 9, target_page_url := "q", inactive := "" }] }

/-- The state produced by registering the asset `http://ex.test/img.png`
under the source page of `exPageDB`. -/
def exAssetRegistered : WDC.DB :=
  { pages := [{ page_id := 0, page_url := "http://ex.test/", inactive := "" }],
    assets := [{ asset_id := 0, asset_url := "http://ex.test/img.png",
                 asset_type := "image/png", inactive := "" }],
    page_network := [],
    asset_network := [{ link_id := 0, source_page_url := "http://ex.test/",
                        target_asset_url := "http://ex.test/img.png", inactive := "" }],
    raw_pages := [], raw_assets := [] }

/-- The classification rule exactly as the specification words it: asset iff
the final path segment contains a `.` and does not *end* in `.html` or `.php`
(case-insensitive).  Stated from the spec for comparison with
`RWA.is_asset_link`, which the source implements with substring (`in`)
tests instead of suffix tests. -/
def claimedAssetRule (link : String) : Bool :=
  let seg := lastSegment (Url.urlparse link).path
  let lowered : List Char := seg.map Char.toLower
  listContainsSub seg ['.'] &&
  !(listHasPre lowered.reverse ".html".data.reverse) &&
  !(listHasPre lowered.reverse ".php".data.reverse)

/-!
# Theorems

Generic list lemmas first, then the lemmas about the embedded operations,
then one theorem per claim.
-/

theorem updateFirst_length {α : Type} (l : List α) (p : α → Bool) (f : α → α) :
    (updateFirst l p f).length = l.length := by
  induction l with
  | nil => rfl
  | cons x xs ih =>
    simp only [updateFirst]
    split <;> simp [ih]

theorem find?_updateFirst {α : Type} (l : List α) (p : α → Bool) (f : α → α)
    (a : α) (h : l.find? p = some a) (hf : p (f a) = true) :
    (updateFirst l p f).find? p = some (f a) := by
  induction l with
  | nil => simp [List.find?] at h
  | cons x xs ih =>
    by_cases hx : p x
    · rw [List.find?_cons_of_pos _ hx] at h
      cases h
      simp [updateFirst, hx, List.find?_cons_of_pos _ hf]
    · rw [List.find?_cons_of_neg _ hx] at h
      simp only [updateFirst]
      rw [if_neg hx, List.find?_cons_of_neg _ hx]
      exact ih h

theorem find?_updateFirst_none {α : Type} (l : List α) (p : α → Bool) (f : α → α)
    (h : l.find? p = none) : updateFirst l p f = l := by
  induction l with
  | nil => rfl
  | cons x xs ih =>
    rw [List.find?_cons] at h
    split at h
    · exact absurd h (by simp)
    · simp only [updateFirst]
      rw [if_neg (by simp_all), ih h]

/-- `Forall₂ R l (updateFirst l p f)` whenever `R` is reflexive-on-`l` and
compatible with `f`. -/
theorem forall2_updateFirst {α : Type} (R : α → α → Prop) (l : List α)
    (p : α → Bool) (f : α → α)
    (hrefl : ∀ a ∈ l, R a a) (hf : ∀ a ∈ l, R a (f a)) :
    List.Forall₂ R l (updateFirst l p f) := by
  induction l with
  | nil => exact List.Forall₂.nil
  | cons x xs ih =>
    simp only [updateFirst]
    split
    · exact List.Forall₂.cons (hf x (by simp)) (List.forall₂_same.mpr (fun a ha => hrefl a (by simp [ha])))
    · exact List.Forall₂.cons (hrefl x (by simp))
        (ih (fun a ha => hrefl a (by simp [ha])) (fun a ha => hf a (by simp [ha])))

theorem listHasPre_iff (l pat : List Char) :
    listHasPre l pat = true ↔ ∃ t, l = pat ++ t := by
  induction pat generalizing l with
  | nil => simp [listHasPre]
  | cons p ps ih =>
    cases l with
    | nil => simp [listHasPre]
    | cons c cs =>
      simp only [listHasPre, Bool.and_eq_true, beq_iff_eq, ih]
      constructor
      · rintro ⟨rfl, t, rfl⟩; exact ⟨t, rfl⟩
      · rintro ⟨t, h⟩
        injection h with h1 h2
        exact ⟨h1, t, h2⟩

theorem listContainsSub_iff (l pat : List Char) :
    listContainsSub l pat = true ↔ ∃ a b, l = a ++ pat ++ b := by
  induction l with
  | nil =>
    simp only [listContainsSub, List.isEmpty_iff]
    constructor
    · rintro rfl; exact ⟨[], [], rfl⟩
    · rintro ⟨a, b, h⟩
      rcases List.append_eq_nil.mp h.symm with ⟨h1, h2⟩
      exact (List.append_eq_nil.mp h1).2
  | cons c cs ih =>
    simp only [listContainsSub, Bool.or_eq_true, listHasPre_iff, ih]
    constructor
    · rintro (⟨t, h⟩ | ⟨a, b, h⟩)
      · exact ⟨[], t, by simp [h]⟩
      · exact ⟨c :: a, b, by simp [h]⟩
    · rintro ⟨a, b, h⟩
      cases a with
      | nil => exact Or.inl ⟨b, by simpa using h⟩
      | cons a0 as =>
        right
        injection h with h1 h2
        exact ⟨as, b, h2⟩

theorem find?_append_none {α : Type} (l1 l2 : List α) (p : α → Bool)
    (h : l1.find? p = none) : (l1 ++ l2).find? p = l2.find? p := by
  induction l1 with
  | nil => rfl
  | cons x xs ih =>
    rw [List.find?_cons] at h
    split at h
    · exact absurd h (by simp)
    · rw [List.cons_append, List.find?_cons_of_neg _ (by simp_all)]
      exact ih h

theorem forall2_mem_left {α β : Type} {R : α → β → Prop} {l1 : List α} {l2 : List β}
    (h : List.Forall₂ R l1 l2) {a : α} (ha : a ∈ l1) : ∃ b ∈ l2, R a b := by
  induction h with
  | nil => cases ha
  | cons hr _ ih =>
    rcases List.mem_cons.mp ha with rfl | ha'
    · exact ⟨_, by simp, hr⟩
    · rcases ih ha' with ⟨b, hb, hr'⟩
      exact ⟨b, by simp [hb], hr'⟩

theorem forall2_mem_right {α β : Type} {R : α → β → Prop} {l1 : List α} {l2 : List β}
    (h : List.Forall₂ R l1 l2) {b : β} (hb : b ∈ l2) : ∃ a ∈ l1, R a b := by
  induction h with
  | nil => cases hb
  | cons hr _ ih =>
    rcases List.mem_cons.mp hb with rfl | hb'
    · exact ⟨_, by simp, hr⟩
    · rcases ih hb' with ⟨a, ha, hr'⟩
      exact ⟨a, by simp [ha], hr'⟩

theorem forall2_compose {α β γ : Type} {R : α → β → Prop} {S : β → γ → Prop}
    {T : α → γ → Prop} {l1 : List α} {l2 : List β} {l3 : List γ}
    (h1 : List.Forall₂ R l1 l2) (h2 : List.Forall₂ S l2 l3)
    (comp : ∀ a b c, R a b → S b c → T a c) : List.Forall₂ T l1 l3 := by
  induction h1 generalizing l3 with
  | nil => cases h2; exact List.Forall₂.nil
  | cons hr _ ih =>
    cases h2 with
    | cons hs htl => exact List.Forall₂.cons (comp _ _ _ hr hs) (ih htl)

theorem forall2_map_self {α : Type} {R : α → α → Prop} (l : List α) (f : α → α)
    (h : ∀ a ∈ l, R a (f a)) : List.Forall₂ R l (l.map f) := by
  induction l with
  | nil => exact List.Forall₂.nil
  | cons x xs ih =>
    exact List.Forall₂.cons (h x (by simp)) (ih (fun a ha => h a (by simp [ha])))

theorem countP_imp_le {α : Type} (l : List α) (p q : α → Bool)
    (h : ∀ a ∈ l, q a = true → p a = true) : l.countP q ≤ l.countP p := by
  induction l with
  | nil => simp
  | cons x xs ih =>
    have hxs := ih (fun a ha hq => h a (by simp [ha]) hq)
    simp only [List.countP_cons]
    by_cases hq : q x = true
    · rw [if_pos hq, if_pos (h x (by simp) hq)]; omega
    · rw [if_neg hq]; split <;> omega

theorem countP_imp_lt {α : Type} (l : List α) (p q : α → Bool)
    (h : ∀ a ∈ l, q a = true → p a = true)
    (a : α) (ha : a ∈ l) (hpa : p a = true) (hqa : q a = false) :
    l.countP q < l.countP p := by
  induction l with
  | nil => cases ha
  | cons x xs ih =>
    simp only [List.countP_cons]
    rcases List.mem_cons.mp ha with rfl | ha'
    · rw [if_pos hpa, if_neg (by simp [hqa])]
      have := countP_imp_le xs p q (fun b hb hq => h b (by simp [hb]) hq)
      omega
    · have := ih (fun b hb hq => h b (by simp [hb]) hq) ha'
      by_cases hq : q x = true
      · rw [if_pos hq, if_pos (h x (by simp) hq)]; omega
      · rw [if_neg hq]; split <;> omega

/-! ### Lemmas about `get_next_url`'s marking phase and selection loop. -/

theorem markStep_trans {a b c : WDC.PageLink}
    (h1 : MarkStep a b) (h2 : MarkStep b c) : MarkStep a c := by
  rcases h1 with rfl | rfl <;> rcases h2 with rfl | rfl
  · exact Or.inl rfl
  · exact Or.inr rfl
  · exact Or.inr rfl
  · exact Or.inr rfl

theorem markStep_target {a b : WDC.PageLink} (h : MarkStep a b) :
    b.target_page_url = a.target_page_url := by
  rcases h with rfl | rfl <;> rfl

theorem markStep_followed {a b : WDC.PageLink} (h : MarkStep a b)
    (ha : a.followed = true) : b.followed = true := by
  rcases h with rfl | rfl
  · exact ha
  · rfl

theorem markedOnly_refl (l : List WDC.PageLink) : MarkedOnly l l :=
  List.forall₂_same.mpr (fun _ _ => Or.inl rfl)

theorem markedOnly_trans {l1 l2 l3 : List WDC.PageLink}
    (h1 : MarkedOnly l1 l2) (h2 : MarkedOnly l2 l3) : MarkedOnly l1 l3 :=
  forall2_compose h1 h2 (fun _ _ _ => markStep_trans)

theorem markOne_eq_self_or (t : String) (a : WDC.PageLink) :
    WDC.markOne t a = a ∨ WDC.markOne t a = { a with followed := true } := by
  rw [WDC.markOne]
  by_cases h : (a.followed == false && a.target_page_url == t) = true
  · rw [if_pos h]; exact Or.inr rfl
  · rw [if_neg h]; exact Or.inl rfl

theorem markOne_target (t : String) (a : WDC.PageLink) :
    (WDC.markOne t a).target_page_url = a.target_page_url := by
  rcases markOne_eq_self_or t a with h | h <;> rw [h]

theorem markOne_followed_of_target (t : String) (a : WDC.PageLink)
    (ht : a.target_page_url = t) : (WDC.markOne t a).followed = true := by
  rw [WDC.markOne]
  cases ha : a.followed
  · rw [if_pos (by simp [ha, ht])]
  · rw [if_neg (by simp [ha])]
    exact ha

theorem markedOnly_mark (l : List WDC.PageLink) (t : String) :
    MarkedOnly l (WDC.markTargetFollowed l t) :=
  forall2_map_self l (WDC.markOne t) (fun a _ => markOne_eq_self_or t a)

theorem markTargetFollowed_target_all (l : List WDC.PageLink) (t : String) :
    ∀ e ∈ WDC.markTargetFollowed l t, e.target_page_url = t → e.followed = true := by
  intro e he htgt
  rcases List.mem_map.mp he with ⟨a, _, rfl⟩
  exact markOne_followed_of_target t a (by rw [← markOne_target t a]; exact htgt)

theorem markedOnly_preserves_target_followed {l1 l2 : List WDC.PageLink}
    (h : MarkedOnly l1 l2) (u : String)
    (hall : ∀ e ∈ l1, e.target_page_url = u → e.followed = true) :
    ∀ e ∈ l2, e.target_page_url = u → e.followed = true := by
  intro e he htgt
  rcases forall2_mem_right h he with ⟨a, ha, hstep⟩
  refine markStep_followed hstep (hall a ha ?_)
  rw [← markStep_target hstep]; exact htgt

theorem markedOnly_preserves_witness {l1 l2 : List WDC.PageLink}
    (h : MarkedOnly l1 l2) {u : String}
    (hw : ∃ e ∈ l1, e.followed = true ∧ e.target_page_url = u) :
    ∃ e ∈ l2, e.followed = true ∧ e.target_page_url = u := by
  rcases hw with ⟨e, he, hf, ht⟩
  rcases forall2_mem_left h he with ⟨b, hb, hstep⟩
  exact ⟨b, hb, markStep_followed hstep hf, by rw [markStep_target hstep, ht]⟩

theorem countUnfollowed_eq_countP (l : List WDC.PageLink) :
    WDC.countUnfollowed l = l.countP (fun e => e.followed == false) :=
  (List.countP_eq_length_filter _ _).symm

theorem markOne_unfollowed_of_unfollowed (t : String) (a : WDC.PageLink)
    (h : ((WDC.markOne t a).followed == false) = true) :
    (a.followed == false) = true := by
  rcases markOne_eq_self_or t a with heq | heq
  · rw [heq] at h; exact h
  · rw [heq] at h; simp at h

theorem countUnfollowed_mark_le (l : List WDC.PageLink) (t : String) :
    WDC.countUnfollowed (WDC.markTargetFollowed l t) ≤ WDC.countUnfollowed l := by
  rw [countUnfollowed_eq_countP, countUnfollowed_eq_countP, WDC.markTargetFollowed,
    List.countP_map]
  exact countP_imp_le l _ _ (fun a _ h => markOne_unfollowed_of_unfollowed t a h)

theorem countUnfollowed_mark_lt (l : List WDC.PageLink) (e : WDC.PageLink)
    (he : e ∈ l) (hf : e.followed = false) :
    WDC.countUnfollowed (WDC.markTargetFollowed l e.target_page_url) <
      WDC.countUnfollowed l := by
  rw [countUnfollowed_eq_countP, countUnfollowed_eq_countP, WDC.markTargetFollowed,
    List.countP_map]
  refine countP_imp_lt l _ _
    (fun a _ h => markOne_unfollowed_of_unfollowed e.target_page_url a h)
    e he (by simp [hf]) ?_
  show ((WDC.markOne e.target_page_url e).followed == false) = false
  rw [markOne_followed_of_target e.target_page_url e rfl]
  rfl

/-- Branch equations of the selection loop. -/
theorem nextUrlLoop_succ_none (n : Nat) (l : List WDC.PageLink)
    (hfind : l.find? (fun e => e.followed == false) = none) :
    WDC.nextUrlLoop (n + 1) l = (none, l) := by
  simp only [WDC.nextUrlLoop, hfind]

theorem nextUrlLoop_succ_dup (n : Nat) (l : List WDC.PageLink) (e : WDC.PageLink)
    (hfind : l.find? (fun e => e.followed == false) = some e)
    (hany : (l.any fun x => x.followed && x.target_page_url == e.target_page_url) = true) :
    WDC.nextUrlLoop (n + 1) l =
      WDC.nextUrlLoop n (WDC.markTargetFollowed l e.target_page_url) := by
  simp only [WDC.nextUrlLoop, hfind]
  rw [if_pos hany]

theorem nextUrlLoop_succ_fresh (n : Nat) (l : List WDC.PageLink) (e : WDC.PageLink)
    (hfind : l.find? (fun e => e.followed == false) = some e)
    (hany : ¬(l.any fun x => x.followed && x.target_page_url == e.target_page_url) = true) :
    WDC.nextUrlLoop (n + 1) l = (some e.target_page_url, l) := by
  simp only [WDC.nextUrlLoop, hfind]
  rw [if_neg hany]

theorem nextUrlLoop_markedOnly (fuel : Nat) (l : List WDC.PageLink) :
    MarkedOnly l (WDC.nextUrlLoop fuel l).2 := by
  induction fuel generalizing l with
  | zero => exact markedOnly_refl l
  | succ n ih =>
    cases hfind : l.find? (fun e => e.followed == false) with
    | none => rw [nextUrlLoop_succ_none n l hfind]; exact markedOnly_refl l
    | some e =>
      by_cases hany :
          (l.any fun x => x.followed && x.target_page_url == e.target_page_url) = true
      · rw [nextUrlLoop_succ_dup n l e hfind hany]
        exact markedOnly_trans (markedOnly_mark l e.target_page_url) (ih _)
      · rw [nextUrlLoop_succ_fresh n l e hfind hany]
        exact markedOnly_refl l

theorem nextUrlLoop_none_iff (fuel : Nat) (l : List WDC.PageLink)
    (h : WDC.countUnfollowed l < fuel) :
    ((WDC.nextUrlLoop fuel l).1 = none) ↔
      (∀ e ∈ (WDC.nextUrlLoop fuel l).2, e.followed = true) := by
  induction fuel generalizing l with
  | zero => omega
  | succ n ih =>
    cases hfind : l.find? (fun e => e.followed == false) with
    | none =>
      rw [nextUrlLoop_succ_none n l hfind]
      constructor
      · intro _ e he
        have := List.find?_eq_none.mp hfind e he
        simpa using this
      · intro _; rfl
    | some e =>
      have hmem := List.mem_of_find?_eq_some hfind
      have hpred := List.find?_some hfind
      by_cases hany :
          (l.any fun x => x.followed && x.target_page_url == e.target_page_url) = true
      · rw [nextUrlLoop_succ_dup n l e hfind hany]
        apply ih
        have := countUnfollowed_mark_lt l e hmem (by simpa using hpred)
        omega
      · rw [nextUrlLoop_succ_fresh n l e hfind hany]
        constructor
        · intro hc; exact absurd hc (by simp)
        · intro hall
          have h2 := hall e hmem
          rw [h2] at hpred
          exact absurd hpred (by simp)

theorem nextUrlLoop_some (fuel : Nat) (l : List WDC.PageLink) (u : String)
    (h : (WDC.nextUrlLoop fuel l).1 = some u) :
    ∃ e ∈ (WDC.nextUrlLoop fuel l).2, e.followed = false ∧ e.target_page_url = u := by
  induction fuel generalizing l with
  | zero => cases h
  | succ n ih =>
    cases hfind : l.find? (fun e => e.followed == false) with
    | none => rw [nextUrlLoop_succ_none n l hfind] at h; cases h
    | some e =>
      have hmem := List.mem_of_find?_eq_some hfind
      have hpred := List.find?_some hfind
      by_cases hany :
          (l.any fun x => x.followed && x.target_page_url == e.target_page_url) = true
      · rw [nextUrlLoop_succ_dup n l e hfind hany] at h ⊢
        exact ih _ h
      · rw [nextUrlLoop_succ_fresh n l e hfind hany] at h ⊢
        injection h with h
        exact ⟨e, hmem, by simpa using hpred, h⟩

theorem nextUrlLoop_no_refollow (fuel : Nat) (l : List WDC.PageLink) (u : String)
    (hw : ∃ e ∈ l, e.followed = true ∧ e.target_page_url = u) :
    (WDC.nextUrlLoop fuel l).1 ≠ some u := by
  induction fuel generalizing l with
  | zero => simp [WDC.nextUrlLoop]
  | succ n ih =>
    cases hfind : l.find? (fun e => e.followed == false) with
    | none => rw [nextUrlLoop_succ_none n l hfind]; simp
    | some e =>
      by_cases hany :
          (l.any fun x => x.followed && x.target_page_url == e.target_page_url) = true
      · rw [nextUrlLoop_succ_dup n l e hfind hany]
        exact ih _ (markedOnly_preserves_witness (markedOnly_mark l _) hw)
      · rw [nextUrlLoop_succ_fresh n l e hfind hany]
        intro hc
        injection hc with hc
        rcases hw with ⟨w, hwmem, hwf, hwt⟩
        exact absurd (List.any_eq_true.mpr ⟨w, hwmem, by simp [hwf, hwt, hc]⟩) hany
/-! ### `RowsExtend` machinery. -/

theorem rowsExtend_refl {α : Type} (R : α → α → Prop) (l : List α)
    (hrefl : ∀ a ∈ l, R a a) : RowsExtend R l l := by
  refine ⟨le_refl _, ?_⟩
  rw [List.take_length]
  exact List.forall₂_same.mpr hrefl

theorem rowsExtend_append {α : Type} (R : α → α → Prop) (l xs : List α)
    (hrefl : ∀ a ∈ l, R a a) : RowsExtend R l (l ++ xs) := by
  refine ⟨by simp, ?_⟩
  rw [List.take_left]
  exact List.forall₂_same.mpr hrefl

theorem rowsExtend_updateFirst {α : Type} (R : α → α → Prop) (l : List α)
    (p : α → Bool) (f : α → α)
    (hrefl : ∀ a ∈ l, R a a) (hf : ∀ a ∈ l, R a (f a)) :
    RowsExtend R l (updateFirst l p f) := by
  refine ⟨le_of_eq (updateFirst_length l p f).symm, ?_⟩
  rw [← updateFirst_length l p f, List.take_length]
  exact forall2_updateFirst R l p f hrefl hf

theorem forall2_take {α β : Type} {R : α → β → Prop} {l1 : List α} {l2 : List β}
    (h : List.Forall₂ R l1 l2) (n : Nat) :
    List.Forall₂ R (l1.take n) (l2.take n) := by
  induction h generalizing n with
  | nil => simp only [List.take_nil]; exact List.Forall₂.nil
  | cons hr htl ih =>
    cases n with
    | zero => exact List.Forall₂.nil
    | succ m => exact List.Forall₂.cons hr (ih m)

theorem forall2_length_eq {α β : Type} {R : α → β → Prop} {l1 : List α} {l2 : List β}
    (h : List.Forall₂ R l1 l2) : l1.length = l2.length := by
  induction h with
  | nil => rfl
  | cons _ _ ih => simpa using ih

theorem rowsExtend_trans {α : Type} {R : α → α → Prop}
    (htrans : ∀ a b c, R a b → R b c → R a c)
    {l1 l2 l3 : List α} (h1 : RowsExtend R l1 l2) (h2 : RowsExtend R l2 l3) :
    RowsExtend R l1 l3 := by
  obtain ⟨hlen1, hf1⟩ := h1
  obtain ⟨hlen2, hf2⟩ := h2
  refine ⟨le_trans hlen1 hlen2, ?_⟩
  have step2 := forall2_take hf2 l1.length
  rw [List.take_take, Nat.min_eq_left hlen1] at step2
  exact forall2_compose hf1 step2 htrans
/-! ### `get_next_url` assembled. -/

theorem get_next_url_fst (s : WDC.DB) (u : String) :
    (WDC.get_next_url s u).1 =
      (WDC.nextUrlLoop
        (WDC.countUnfollowed (WDC.markTargetFollowed s.page_network u) + 1)
        (WDC.markTargetFollowed s.page_network u)).1 := rfl

theorem get_next_url_network (s : WDC.DB) (u : String) :
    (WDC.get_next_url s u).2.page_network =
      (WDC.nextUrlLoop
        (WDC.countUnfollowed (WDC.markTargetFollowed s.page_network u) + 1)
        (WDC.markTargetFollowed s.page_network u)).2 := rfl

theorem get_next_url_markedOnly (s : WDC.DB) (u : String) :
    MarkedOnly s.page_network (WDC.get_next_url s u).2.page_network := by
  rw [get_next_url_network]
  exact markedOnly_trans (markedOnly_mark _ u) (nextUrlLoop_markedOnly _ _)

/-- After `get_next_url s u`, every edge whose target is the current URL `u`
is followed. -/
theorem get_next_url_marks_current (s : WDC.DB) (u : String) :
    ∀ e ∈ (WDC.get_next_url s u).2.page_network,
      e.target_page_url = u → e.followed = true := by
  rw [get_next_url_network]
  exact markedOnly_preserves_target_followed (nextUrlLoop_markedOnly _ _) u
    (markTargetFollowed_target_all _ u)

/-- A URL that already has a followed inbound edge is never returned again. -/
theorem get_next_url_no_refollow (s : WDC.DB) (u u' : String)
    (hw : ∃ e ∈ s.page_network, e.followed = true ∧ e.target_page_url = u) :
    (WDC.get_next_url s u').1 ≠ some u := by
  rw [get_next_url_fst]
  exact nextUrlLoop_no_refollow _ _ u
    (markedOnly_preserves_witness (markedOnly_mark _ u') hw)

theorem get_next_url_none_iff (s : WDC.DB) (u : String) :
    ((WDC.get_next_url s u).1 = none ↔
      ∀ e ∈ (WDC.get_next_url s u).2.page_network, e.followed = true) := by
  rw [get_next_url_fst, get_next_url_network]
  exact nextUrlLoop_none_iff _ _ (by omega)

/-- When a URL is returned, a pending (unfollowed) edge to it remains in the
returned state. -/
theorem get_next_url_pending (s : WDC.DB) (c u : String)
    (h : (WDC.get_next_url s c).1 = some u) :
    ∃ e ∈ (WDC.get_next_url s c).2.page_network,
      e.followed = false ∧ e.target_page_url = u := by
  rw [get_next_url_network]
  rw [get_next_url_fst] at h
  exact nextUrlLoop_some _ _ u h

/-! ### Reactivation helpers for the registration upserts. -/

theorem pageReact_url (p : WDC.Page) :
    ((if p.inactive ≠ "" then { p with inactive := "" } else p) : WDC.Page).page_url
      = p.page_url := by
  split <;> rfl

theorem pageReact_inactive (p : WDC.Page) :
    ((if p.inactive ≠ "" then { p with inactive := "" } else p) : WDC.Page).inactive
      = "" := by
  split
  · rfl
  · next h => simpa using h

theorem assetReact_url (a : WDC.Asset) :
    ((if a.inactive ≠ "" then { a with inactive := "" } else a) : WDC.Asset).asset_url
      = a.asset_url := by
  split <;> rfl

theorem assetReact_inactive (a : WDC.Asset) :
    ((if a.inactive ≠ "" then { a with inactive := "" } else a) : WDC.Asset).inactive
      = "" := by
  split
  · rfl
  · next h => simpa using h

theorem alinkReact_fields (L : WDC.AssetLink) :
    ((if L.inactive ≠ "" then { L with inactive := "" } else L) : WDC.AssetLink).source_page_url
      = L.source_page_url ∧
    ((if L.inactive ≠ "" then { L with inactive := "" } else L) : WDC.AssetLink).target_asset_url
      = L.target_asset_url ∧
    ((if L.inactive ≠ "" then { L with inactive := "" } else L) : WDC.AssetLink).inactive
      = "" := by
  refine ⟨?_, ?_, ?_⟩ <;> split
  · rfl
  · rfl
  · rfl
  · rfl
  · rfl
  · next h => simpa using h

/-! ### `relink_temporary_links` structural lemmas. -/

theorem wRowIds_refl (a : WAD.WPageLink) : WRowIds a a := ⟨rfl, rfl, rfl⟩

theorem wRowIds_trans {a b c : WAD.WPageLink}
    (h1 : WRowIds a b) (h2 : WRowIds b c) : WRowIds a c :=
  ⟨h2.1.trans h1.1, h2.2.1.trans h1.2.1, h2.2.2.trans h1.2.2⟩

theorem relinkOne_extends (pages : List WAD.WPage) (net : List WAD.WPageLink)
    (t : WAD.WExternalLink) :
    RowsExtend WRowIds net (WAD.relinkOne pages net t) := by
  simp only [WAD.relinkOne]
  cases hp : pages.find? (fun p => p.page_url == t.target_page_url) with
  | none => exact rowsExtend_refl _ _ (fun a _ => wRowIds_refl a)
  | some pg =>
    dsimp only
    cases hl : net.find? (fun L =>
        L.source_page_id == t.source_page_id && L.target_page_id == pg.page_id) with
    | none => exact rowsExtend_append _ _ _ (fun a _ => wRowIds_refl a)
    | some _ =>
      exact rowsExtend_updateFirst _ _ _ _ (fun a _ => wRowIds_refl a)
        (fun a _ => ⟨rfl, rfl, rfl⟩)

theorem relink_foldl_extends (pages : List WAD.WPage)
    (ext : List WAD.WExternalLink) :
    ∀ net, RowsExtend WRowIds net (ext.foldl (WAD.relinkOne pages) net) := by
  induction ext with
  | nil => intro net; exact rowsExtend_refl _ _ (fun a _ => wRowIds_refl a)
  | cons t ts ih =>
    intro net
    rw [List.foldl_cons]
    exact @rowsExtend_trans _ WRowIds (fun _ _ _ h1 h2 => wRowIds_trans h1 h2)
      _ _ _ (relinkOne_extends pages net t) (ih _)
/-! ### Further auxiliary lemmas. -/

theorem filter_eq_self_of_all {α : Type} (l : List α) (p : α → Bool)
    (h : ∀ a ∈ l, p a = true) : l.filter p = l := by
  induction l with
  | nil => rfl
  | cons x xs ih =>
    rw [List.filter_cons, if_pos (h x (by simp))]
    rw [ih (fun a ha => h a (by simp [ha]))]

theorem foldl_relinkOne_id (pages : List WAD.WPage) (ext : List WAD.WExternalLink)
    (h : ∀ t ∈ ext, pages.find? (fun p => p.page_url == t.target_page_url) = none) :
    ∀ net, ext.foldl (WAD.relinkOne pages) net = net := by
  induction ext with
  | nil => intro net; rfl
  | cons t ts ih =>
    intro net
    rw [List.foldl_cons]
    have h1 : WAD.relinkOne pages net t = net := by
      simp only [WAD.relinkOne, h t (by simp)]
    rw [h1]
    exact ih (fun x hx => h x (by simp [hx])) net

/-- A list member survives `updateFirst` either untouched or with `f`
applied. -/
theorem updateFirst_mem_or {α : Type} (l : List α) (p : α → Bool) (f : α → α)
    {a : α} (ha : a ∈ l) :
    a ∈ updateFirst l p f ∨ f a ∈ updateFirst l p f := by
  induction l with
  | nil => cases ha
  | cons x xs ih =>
    simp only [updateFirst]
    by_cases hx : p x = true
    · rw [if_pos hx]
      rcases List.mem_cons.mp ha with rfl | ha'
      · exact Or.inr (List.mem_cons_self _ _)
      · exact Or.inl (List.mem_cons_of_mem _ ha')
    · rw [if_neg hx]
      rcases List.mem_cons.mp ha with rfl | ha'
      · exact Or.inl (List.mem_cons_self _ _)
      · rcases ih ha' with h | h
        · exact Or.inl (List.mem_cons_of_mem _ h)
        · exact Or.inr (List.mem_cons_of_mem _ h)

/-- One `relink_temporary_links` iteration never destroys an equivalent
active internal edge: it leaves the table alone, appends, or sets a row's
`inactive` to `""` without touching its endpoint ids. -/
theorem relinkOne_preserves_transfer (pages : List WAD.WPage)
    (net : List WAD.WPageLink) (u : WAD.WExternalLink) (src tgt : Nat)
    (hP : ∃ L ∈ net, L.source_page_id = src ∧ L.target_page_id = tgt ∧
      L.inactive = "") :
    ∃ L ∈ WAD.relinkOne pages net u,
      L.source_page_id = src ∧ L.target_page_id = tgt ∧ L.inactive = "" := by
  obtain ⟨L, hm, h1, h2, h3⟩ := hP
  simp only [WAD.relinkOne]
  cases hp : pages.find? (fun p => p.page_url == u.target_page_url) with
  | none => exact ⟨L, hm, h1, h2, h3⟩
  | some pg =>
    dsimp only
    cases hl : net.find? (fun L2 =>
        L2.source_page_id == u.source_page_id && L2.target_page_id == pg.page_id) with
    | none =>
      dsimp only
      exact ⟨L, List.mem_append_left _ hm, h1, h2, h3⟩
    | some L' =>
      dsimp only
      rcases updateFirst_mem_or net
          (fun L2 => L2.source_page_id == u.source_page_id &&
            L2.target_page_id == pg.page_id)
          (fun L2 => { L2 with inactive := "" }) hm with h | h
      · exact ⟨L, h, h1, h2, h3⟩
      · exact ⟨{ L with inactive := "" }, h, h1, h2, rfl⟩

/-- A temporary link whose target matches a known page gets an equivalent
active internal edge created or reactivated by its `relink` iteration. -/
theorem relinkOne_establishes_transfer (pages : List WAD.WPage)
    (net : List WAD.WPageLink) (t : WAD.WExternalLink) (pg : WAD.WPage)
    (hf : pages.find? (fun p => p.page_url == t.target_page_url) = some pg) :
    ∃ L ∈ WAD.relinkOne pages net t,
      L.source_page_id = t.source_page_id ∧ L.target_page_id = pg.page_id ∧
      L.inactive = "" := by
  simp only [WAD.relinkOne, hf]
  cases hl : net.find? (fun L2 =>
      L2.source_page_id == t.source_page_id && L2.target_page_id == pg.page_id) with
  | none =>
    dsimp only
    exact ⟨{ link_id := net.length, source_page_id := t.source_page_id,
             target_page_id := pg.page_id, inactive := "" }, by simp, rfl, rfl, rfl⟩
  | some L =>
    dsimp only
    have hfu := find?_updateFirst net
      (fun L2 => L2.source_page_id == t.source_page_id &&
        L2.target_page_id == pg.page_id)
      (fun L2 => { L2 with inactive := "" }) L hl
      (by have hx := List.find?_some hl; simpa using hx)
    have hx := List.find?_some hl
    simp only [Bool.and_eq_true, beq_iff_eq] at hx
    exact ⟨{ L with inactive := "" }, List.mem_of_find?_eq_some hfu,
      hx.1, hx.2, rfl⟩

theorem foldl_relinkOne_preserves (pages : List WAD.WPage)
    (ext : List WAD.WExternalLink) (src tgt : Nat) :
    ∀ net, (∃ L ∈ net, L.source_page_id = src ∧ L.target_page_id = tgt ∧
        L.inactive = "") →
      ∃ L ∈ ext.foldl (WAD.relinkOne pages) net,
        L.source_page_id = src ∧ L.target_page_id = tgt ∧ L.inactive = "" := by
  induction ext with
  | nil => intro net h; exact h
  | cons u us ih =>
    intro net h
    rw [List.foldl_cons]
    exact ih _ (relinkOne_preserves_transfer pages net u src tgt h)

theorem foldl_relinkOne_transfers (pages : List WAD.WPage)
    (t : WAD.WExternalLink) (pg : WAD.WPage)
    (hf : pages.find? (fun p => p.page_url == t.target_page_url) = some pg) :
    ∀ (ext : List WAD.WExternalLink), t ∈ ext → ∀ net,
      ∃ L ∈ ext.foldl (WAD.relinkOne pages) net,
        L.source_page_id = t.source_page_id ∧ L.target_page_id = pg.page_id ∧
        L.inactive = "" := by
  intro ext
  induction ext with
  | nil => intro ht; cases ht
  | cons u us ih =>
    intro ht net
    rw [List.foldl_cons]
    rcases List.mem_cons.mp ht with rfl | ht'
    · exact foldl_relinkOne_preserves pages us _ _ _
        (relinkOne_establishes_transfer pages net t pg hf)
    · exact ih ht' _

theorem listContainsSub_singleton (l : List Char) (c : Char) :
    listContainsSub l [c] = true ↔ c ∈ l := by
  rw [listContainsSub_iff]
  constructor
  · rintro ⟨a, b, rfl⟩; simp
  · intro h
    rcases List.append_of_mem h with ⟨a, b, rfl⟩
    exact ⟨a, b, by simp⟩

theorem outage_wait_loop_zero (connUp : Nat → Bool) (r : Int) (fuel : Nat)
    (hr : 0 ≤ r) : RWA.outage_wait_loop connUp r fuel 0 = 0 := by
  cases fuel with
  | zero => rfl
  | succ n =>
    rw [RWA.outage_wait_loop]
    rw [if_neg]
    simp only [Bool.and_eq_true, decide_eq_true_eq, not_and]
    intro _
    omega

/-! ### Claim theorems. -/

/-- C9: `check_for_existing_asset` returns `None` for every asset URL and
every database state (its body never returns the computed value), and the
underlying `check_for_existence` query — whose filter compares the url column
with the constant `False` instead of the given URL — never finds a row, so a
caller reading the declared boolean contract always observes "not known". -/
theorem checkForExistingAsset_always_none :
    (∀ (s : WDC.DB) (u : String), Arch.check_for_existing_asset s u = none) ∧
    (∀ (s : WDC.DB) (u : String) (t : WDC.TargetType),
      WDC.check_for_existence s u t = false) := by
  refine ⟨fun s u => rfl, fun s u t => ?_⟩
  cases t <;>
    simp [WDC.check_for_existence, WDC.urlColumnEqualsFalseConst]

/-- C7: after one run of `relink_temporary_links`, every ExternalPageLink row
whose target string equals the url of a Page row has been replaced by a
created or reactivated (active) equivalent PageLink edge in `page_network`;
no such ExternalPageLink row remains; and running the pass a second time
changes nothing. -/
theorem relink_converges_idempotent :
    ∀ s : WAD.WDB,
      (∀ t ∈ s.external_page_network, ∀ pg : WAD.WPage,
        s.pages.find? (fun p => p.page_url == t.target_page_url) = some pg →
        ∃ L ∈ (WAD.relink_temporary_links s).page_network,
          L.source_page_id = t.source_page_id ∧ L.target_page_id = pg.page_id ∧
          L.inactive = "") ∧
      (((WAD.relink_temporary_links s).external_page_network).all
        (fun t => ((WAD.relink_temporary_links s).pages.find?
          (fun p => p.page_url == t.target_page_url)).isNone)) = true ∧
      WAD.relink_temporary_links (WAD.relink_temporary_links s) =
        WAD.relink_temporary_links s := by
  intro s
  have hext : ∀ t ∈ (WAD.relink_temporary_links s).external_page_network,
      s.pages.find? (fun p => p.page_url == t.target_page_url) = none := by
    intro t ht
    have h2 := List.mem_filter.mp ht
    simpa using h2.2
  refine ⟨?_, ?_, ?_⟩
  · intro t ht pg hf
    exact foldl_relinkOne_transfers s.pages t pg hf
      s.external_page_network ht s.page_network
  · rw [List.all_eq_true]
    intro t ht
    simpa using hext t ht
  · have hfold := foldl_relinkOne_id s.pages
      (WAD.relink_temporary_links s).external_page_network hext
      (WAD.relink_temporary_links s).page_network
    have hfilter : ((WAD.relink_temporary_links s).external_page_network).filter
        (fun t => (s.pages.find? (fun p => p.page_url == t.target_page_url)).isNone)
        = (WAD.relink_temporary_links s).external_page_network :=
      filter_eq_self_of_all _ _ (fun t ht => by rw [hext t ht]; rfl)
    have houter : WAD.relink_temporary_links (WAD.relink_temporary_links s) =
        { pages := (WAD.relink_temporary_links s).pages,
          page_network := ((WAD.relink_temporary_links s).external_page_network).foldl
            (WAD.relinkOne (WAD.relink_temporary_links s).pages)
            (WAD.relink_temporary_links s).page_network,
          external_page_network :=
            ((WAD.relink_temporary_links s).external_page_network).filter
              (fun t => (((WAD.relink_temporary_links s).pages).find?
                (fun p => p.page_url == t.target_page_url)).isNone) } := rfl
    have hcomp2 : ((WAD.relink_temporary_links s).external_page_network).foldl
        (WAD.relinkOne (WAD.relink_temporary_links s).pages)
        (WAD.relink_temporary_links s).page_network
        = (WAD.relink_temporary_links s).page_network := hfold
    have hcomp3 : ((WAD.relink_temporary_links s).external_page_network).filter
        (fun t => (((WAD.relink_temporary_links s).pages).find?
          (fun p => p.page_url == t.target_page_url)).isNone)
        = (WAD.relink_temporary_links s).external_page_network := hfilter
    rw [houter, hcomp2, hcomp3]

/-- Witness for `relink_converges_idempotent`. -/
theorem relink_converges_idempotent_witness :
    ∃ L ∈ (WAD.relink_temporary_links exWDB).page_network,
      L.source_page_id = 9 ∧ L.target_page_id = 5 ∧ L.inactive = "" := by
  have h := (relink_converges_idempotent exWDB).1
    { link_id := 0, source_page_id := 9, target_page_url := "p", inactive := "" }
    (by decide) { page_id := 5, page_url := "p", inactive := "" } (by decide)
  exact h

/-- C5 (code bug): the `ConnectionError` handler checkpoints, but its wait
loop's condition compares `reconnect_retries < tries` (inverted), which is
false at `tries = 0` for every non-negative budget.  At the failing input —
connectivity down throughout, `reconnect_retries = 3600` — the handler sleeps
zero times and retries the same URL although the connection never returned,
and the URL is never added to the failed set; when the first probe reports
connectivity, the URL goes straight to the failed set with no retry. -/
theorem connectionError_handler_never_waits :
    (RWA.connection_error_handler (fun _ => false) 3600 3600 =
      { dumped := true, sleeps := 0, retriedSameUrl := true, failedAdded := false }) ∧
    (∀ (connUp : Nat → Bool) (fuel : Nat) (r : Int), 0 ≤ r →
      (RWA.connection_error_handler connUp r fuel).sleeps = 0 ∧
      (RWA.connection_error_handler connUp r fuel).dumped = true ∧
      ((RWA.connection_error_handler connUp r fuel).failedAdded = true ↔
        connUp 0 = true) ∧
      ((RWA.connection_error_handler connUp r fuel).retriedSameUrl = true ↔
        connUp 0 = false)) := by
  constructor
  · decide
  · intro connUp fuel r hr
    rw [RWA.connection_error_handler]
    cases h0 : connUp 0
    · rw [if_pos (by rfl)]
      simp [outage_wait_loop_zero connUp r fuel hr]
    · rw [if_neg (by simp)]
      simp

/-- Witness for `connectionError_handler_never_waits`. -/
theorem connectionError_handler_never_waits_witness :
    (RWA.connection_error_handler (fun _ => true) 7 5).failedAdded = true := by
  exact (connectionError_handler_never_waits.2 (fun _ => true) 5 7 (by omega)).2.2.1.mpr rfl

/-- C3 counterexample: the final path segment of
`http://ex.test/d/notes.html.bak` contains a dot and does not *end* in
`.html` or `.php`, so the claim classifies it as an asset; the code's
substring test (`".html" not in segment.lower()`) classifies it as a page. -/
theorem classifier_cex :
    RWA.is_asset_link "http://ex.test/d/notes.html.bak" = false ∧
    claimedAssetRule "http://ex.test/d/notes.html.bak" = true := by decide

/-- C3 (amended): the engine buckets a candidate as an asset iff the final
segment of its URL path contains a '.' and contains neither ".html" nor
".php" as a substring of its lower-casing (not merely "does not end in");
the spec's four examples classify exactly as listed. -/
theorem classifier_rule_spec :
    (∀ link : String,
      (RWA.is_asset_link link = true ↔
        ('.' ∈ lastSegment (Url.urlparse link).path ∧
         (¬∃ a b, (lastSegment (Url.urlparse link).path).map Char.toLower
            = a ++ ".html".data ++ b) ∧
         (¬∃ a b, (lastSegment (Url.urlparse link).path).map Char.toLower
            = a ++ ".php".data ++ b)))) ∧
    RWA.is_asset_link "/path/to/file.png" = true ∧
    RWA.is_asset_link "/path/to/page.html" = false ∧
    RWA.is_asset_link "/path/to/page" = false ∧
    RWA.is_asset_link "/a.b/page" = false := by
  refine ⟨?_, by decide, by decide, by decide, by decide⟩
  intro link
  constructor
  · intro h
    simp only [RWA.is_asset_link, Bool.and_eq_true] at h
    obtain ⟨⟨hdot, hhtml⟩, hphp⟩ := h
    refine ⟨(listContainsSub_singleton _ _).mp hdot, ?_, ?_⟩
    · intro hex
      have h2 := (listContainsSub_iff
        ((lastSegment (Url.urlparse link).path).map Char.toLower) ".html".data).mpr hex
      rw [h2] at hhtml
      simp at hhtml
    · intro hex
      have h2 := (listContainsSub_iff
        ((lastSegment (Url.urlparse link).path).map Char.toLower) ".php".data).mpr hex
      rw [h2] at hphp
      simp at hphp
  · rintro ⟨hdot, hh, hp⟩
    simp only [RWA.is_asset_link, Bool.and_eq_true]
    refine ⟨⟨(listContainsSub_singleton _ _).mpr hdot, ?_⟩, ?_⟩
    · cases hb : listContainsSub
          ((lastSegment (Url.urlparse link).path).map Char.toLower) ".html".data
      · rfl
      · exact absurd ((listContainsSub_iff _ _).mp hb) hh
    · cases hb : listContainsSub
          ((lastSegment (Url.urlparse link).path).map Char.toLower) ".php".data
      · rfl
      · exact absurd ((listContainsSub_iff _ _).mp hb) hp

/-- C1 counterexample: with a single pending edge `a → b`, the call that
chooses (returns) `b` leaves that edge unfollowed, and a further call with a
different current URL returns `b` a second time — so "once that target has
been chosen all N sibling edges are marked followed" is false of the choosing
call, and the same target can be returned twice within one run when the
protocol is not followed. -/
theorem getNextUrl_chosen_unmarked_cex :
    (WDC.get_next_url exOneEdge "c").1 = some "b" ∧
    ((((WDC.get_next_url exOneEdge "c").2.page_network).filter
      (fun e => e.target_page_url == "b")).all (fun e => e.followed)) = false ∧
    (WDC.get_next_url ((WDC.get_next_url exOneEdge "c").2) "c").1 = some "b" := by
  decide

/-- C1 (amended): (a) `get_next_url s u` marks every not-yet-followed edge
whose target is the current URL `u`, so afterwards every edge targeting `u`
is followed; (b) the N edges sharing a chosen target are marked followed not
by the choosing call but by the next `get_next_url` call that receives the
chosen URL as its current URL, and a URL with a followed inbound edge is
never returned again — under the engine's protocol (each returned URL is
passed as the next call's current URL) a target URL is therefore returned at
most once per run; (c) the call returns `none` exactly when no PageLink with
`followed=false` remains at the end of the call. -/
theorem getNextUrl_frontier_spec :
    (∀ (s : WDC.DB) (u : String),
      ((((WDC.get_next_url s u).2.page_network).filter
        (fun e => e.target_page_url == u)).all (fun e => e.followed)) = true) ∧
    (∀ (s : WDC.DB) (u u' : String),
      (∃ e ∈ s.page_network, e.followed = true ∧ e.target_page_url = u) →
      (WDC.get_next_url s u').1 ≠ some u) ∧
    (∀ (s : WDC.DB) (u : String),
      ((WDC.get_next_url s u).1 = none ↔
        ((WDC.get_next_url s u).2.page_network.all (fun e => e.followed)) = true)) := by
  refine ⟨?_, ?_, ?_⟩
  · intro s u
    rw [List.all_eq_true]
    intro e he
    have hm := List.mem_filter.mp he
    exact get_next_url_marks_current s u e hm.1 (by simpa using hm.2)
  · intro s u u' hw
    exact get_next_url_no_refollow s u u' hw
  · intro s u
    rw [List.all_eq_true]
    exact get_next_url_none_iff s u

/-- Witness for `getNextUrl_frontier_spec`. -/
theorem getNextUrl_frontier_spec_witness :
    ((WDC.get_next_url exDupEdges "x").1 ≠ some "b") ∧
    ((((WDC.get_next_url exDupEdges "b").2.page_network).filter
      (fun e => e.target_page_url == "b")).all (fun e => e.followed)) = true := by
  constructor
  · exact getNextUrl_frontier_spec.2.1 exDupEdges "b" "x"
      ⟨{ link_id := 0, source_page_url := "a", target_page_url := "b",
         followed := true, inactive := "" }, by decide, rfl, rfl⟩
  · exact getNextUrl_frontier_spec.1 exDupEdges "b"

/-- C8: when `get_next_url` returns a URL `u`, a PageLink with target `u` and
`followed=false` is still present in the returned state (selection does not
flip the chosen edge), and it is a later `get_next_url` call receiving `u` as
its current URL that marks every edge targeting `u` — dequeuing is
at-least-once, not exactly-once. -/
theorem getNextUrl_at_least_once :
    (∀ (s : WDC.DB) (c u : String),
      (WDC.get_next_url s c).1 = some u →
      ∃ e ∈ (WDC.get_next_url s c).2.page_network,
        e.followed = false ∧ e.target_page_url = u) ∧
    (∀ (s : WDC.DB) (u : String),
      ∀ e ∈ (WDC.get_next_url s u).2.page_network,
        e.target_page_url = u → e.followed = true) :=
  ⟨get_next_url_pending, get_next_url_marks_current⟩

/-- Witness for `getNextUrl_at_least_once`. -/
theorem getNextUrl_at_least_once_witness :
    ∃ e ∈ (WDC.get_next_url exOneEdge "c").2.page_network,
      e.followed = false ∧ e.target_page_url = "b" :=
  getNextUrl_at_least_once.1 exOneEdge "c" "b" (by decide)

/-- C2: the `followed` flag is monotonic.  `register_page` and
`register_asset` never touch the `page_network` table; `register_link` only
reactivates an existing edge's tombstone (keeping `followed` exactly as it
was) or appends a new edge; `get_next_url` only raises `followed`; and the
reconciliation pass (`relink_temporary_links`, whose PageLink table carries
no `followed` column at all) leaves every existing edge's identity columns in
place and only appends or reactivates. -/
theorem followed_monotonic :
    (∀ (s : WDC.DB) (url : String) (c p : Option String),
      (WDC.register_page s url c p).page_network = s.page_network) ∧
    (∀ (s : WDC.DB) (su : Option String) (au ty : String)
      (c en ex pth : Option String) (s' : WDC.DB),
      WDC.register_asset s su au ty c en ex pth = some s' →
      s'.page_network = s.page_network) ∧
    (∀ (s : WDC.DB) (su tu : String) (ty : WDC.TargetType),
      RowsExtend (fun a b => RowMono a b ∧ b.followed = a.followed)
        s.page_network ((WDC.register_link s su tu ty).2.page_network)) ∧
    (∀ (s : WDC.DB) (u : String),
      List.Forall₂ RowMono s.page_network ((WDC.get_next_url s u).2.page_network)) ∧
    (∀ (w : WAD.WDB),
      RowsExtend WRowIds w.page_network
        ((WAD.relink_temporary_links w).page_network)) := by
  refine ⟨?_, ?_, ?_, ?_, ?_⟩
  · intro s url c p; rfl
  · intro s su au ty c en ex pth s' h
    simp only [WDC.register_asset] at h
    cases su with
    | none =>
      dsimp only at h
      injection h with h
      rw [← h]
    | some v =>
      dsimp only at h
      cases hfind : s.pages.find? (fun p => p.page_url == v) with
      | none => rw [hfind] at h; cases h
      | some sp =>
        rw [hfind] at h
        injection h with h
        rw [← h]
  · intro s su tu ty
    cases ty with
    | page =>
      simp only [WDC.register_link]
      cases hfind : s.page_network.find?
          (fun L => L.source_page_url == su && L.target_page_url == tu) with
      | none =>
        exact rowsExtend_append _ _ _
          (fun a _ => ⟨⟨rfl, rfl, rfl, fun h => h⟩, rfl⟩)
      | some L =>
        exact rowsExtend_updateFirst _ _ _ _
          (fun a _ => ⟨⟨rfl, rfl, rfl, fun h => h⟩, rfl⟩)
          (fun a _ => ⟨⟨rfl, rfl, rfl, fun h => h⟩, rfl⟩)
    | asset =>
      simp only [WDC.register_link]
      cases hfind : s.asset_network.find?
          (fun L => L.source_page_url == su && L.target_asset_url == tu) with
      | none =>
        exact rowsExtend_refl _ _
          (fun a _ => ⟨⟨rfl, rfl, rfl, fun h => h⟩, rfl⟩)
      | some L =>
        exact rowsExtend_refl _ _
          (fun a _ => ⟨⟨rfl, rfl, rfl, fun h => h⟩, rfl⟩)
  · intro s u
    refine List.Forall₂.imp ?_ (get_next_url_markedOnly s u)
    intro a b hstep
    rcases hstep with rfl | rfl
    · exact ⟨rfl, rfl, rfl, fun h => h⟩
    · exact ⟨rfl, rfl, rfl, fun _ => rfl⟩
  · intro w
    exact relink_foldl_extends w.pages w.external_page_network w.page_network

/-- Witness for `followed_monotonic`. -/
theorem followed_monotonic_witness :
    exAssetRegistered.page_network = exPageDB.page_network :=
  followed_monotonic.2.1 exPageDB (some "http://ex.test/") "http://ex.test/img.png"
    "image/png" none none none none exAssetRegistered (by decide)

/-- C10: `fix_link` returns a result (an absolute URL with backslashes
stripped) whenever the link has both host and scheme — in which case it is
returned unchanged apart from backslash stripping — or whenever the current
URL carries a scheme; it raises `KeyError` (modelled as `none`) exactly when
the link lacks host or scheme, the current URL lacks a scheme, and no scheme
for the current URL's host is in the per-instance scheme cache. -/
theorem fixLink_total_or_keyerror :
    ∀ (schemas : List (String × String)) (cur link : String),
      ((Arch.fix_link schemas cur link = none) ↔
        (((Url.urlparse link).netloc = "" ∨ (Url.urlparse link).scheme = "") ∧
         (Url.urlparse cur).scheme = "" ∧
         schemas.lookup (Url.urlparse cur).netloc = none)) ∧
      ((Url.urlparse link).netloc ≠ "" → (Url.urlparse link).scheme ≠ "" →
        Arch.fix_link schemas cur link = some (schemas, stripBackslashes link)) ∧
      ((Url.urlparse cur).scheme ≠ "" → (Arch.fix_link schemas cur link).isSome = true) := by
  intro schemas cur link
  simp only [Arch.fix_link]
  by_cases hnl : (Url.urlparse link).netloc = ""
  · rw [if_pos hnl]
    by_cases hcs : (Url.urlparse cur).scheme = ""
    · rw [if_neg (fun hne => hne hcs)]
      cases hlook : schemas.lookup (Url.urlparse cur).netloc with
      | none =>
        refine ⟨by simp [hnl, hcs, hlook], ?_, ?_⟩
        · intro h1 _; exact absurd hnl h1
        · intro h; exact absurd hcs h
      | some sch =>
        refine ⟨by simp [hlook], ?_, ?_⟩
        · intro h1 _; exact absurd hnl h1
        · intro h; exact absurd hcs h
    · rw [if_pos hcs]
      refine ⟨by simp [hcs], ?_, by simp⟩
      intro h1 _; exact absurd hnl h1
  · rw [if_neg hnl]
    by_cases hls : (Url.urlparse link).scheme = ""
    · rw [if_pos hls]
      by_cases hcs : (Url.urlparse cur).scheme = ""
      · rw [if_neg (fun hne => hne hcs)]
        cases hlook : schemas.lookup (Url.urlparse cur).netloc with
        | none =>
          refine ⟨by simp [hls, hcs, hlook], ?_, ?_⟩
          · intro _ h2; exact absurd hls h2
          · intro h; exact absurd hcs h
        | some sch =>
          refine ⟨by simp [hlook], ?_, ?_⟩
          · intro _ h2; exact absurd hls h2
          · intro h; exact absurd hcs h
      · rw [if_pos hcs]
        refine ⟨by simp [hcs], ?_, by simp⟩
        intro _ h2; exact absurd hls h2
    · rw [if_neg hls]
      exact ⟨by simp [hnl, hls], fun _ _ => rfl, by simp⟩

/-- Witness for `fixLink_total_or_keyerror`. -/
theorem fixLink_total_or_keyerror_witness :
    (Arch.fix_link [] "ex.test/a" "/b" = none) ∧
    (Arch.fix_link [] "x" "http://h/p\\q" = some ([], "http://h/pq")) ∧
    ((Arch.fix_link [] "http://ex.test/a" "/b").isSome = true) := by
  refine ⟨?_, ?_, ?_⟩
  · exact (fixLink_total_or_keyerror [] "ex.test/a" "/b").1.mpr
      ⟨by decide, by decide, by decide⟩
  · have h := (fixLink_total_or_keyerror [] "x" "http://h/p\\q").2.1
      (by decide) (by decide)
    rw [h]; decide
  · exact (fixLink_total_or_keyerror [] "http://ex.test/a" "/b").2.2 (by decide)

/-! ### Lemmas dissecting the registration upserts (for idempotence). -/

theorem find?_isSome_of_mem {α : Type} (l : List α) (p : α → Bool) (a : α)
    (ha : a ∈ l) (hpa : p a = true) : (l.find? p).isSome = true := by
  cases hx : l.find? p
  · exact absurd hpa (by simpa using List.find?_eq_none.mp hx a ha)
  · rfl

/-- After `register_page`, the page row for the url exists and is active. -/
theorem register_page_find (s : WDC.DB) (url : String) (c p : Option String) :
    (((WDC.register_page s url c p).pages.find? (fun q => q.page_url == url)).map
      (fun q => q.inactive)) = some "" := by
  simp only [WDC.register_page]
  cases hfind : s.pages.find? (fun q => q.page_url == url) with
  | none =>
    dsimp only
    rw [find?_append_none _ _ _ hfind, List.find?_cons_of_pos _ (by simp)]
    rfl
  | some a =>
    dsimp only
    have hpa := List.find?_some hfind
    rw [find?_updateFirst s.pages (fun q => q.page_url == url)
      (fun q => if q.inactive ≠ "" then { q with inactive := "" } else q) a hfind
      (by
        show ((if a.inactive ≠ "" then { a with inactive := "" } else a) : WDC.Page).page_url == url
        rw [pageReact_url]; exact hpa)]
    show some (((if a.inactive ≠ "" then { a with inactive := "" } else a) : WDC.Page).inactive)
      = some ""
    rw [pageReact_inactive]

theorem register_page_pages_length_of_found (s : WDC.DB) (url : String)
    (c p : Option String)
    (h : (s.pages.find? (fun q => q.page_url == url)).isSome = true) :
    (WDC.register_page s url c p).pages.length = s.pages.length := by
  simp only [WDC.register_page]
  cases hfind : s.pages.find? (fun q => q.page_url == url) with
  | none => rw [hfind] at h; cases h
  | some a => dsimp only; rw [updateFirst_length]

/-- After `register_link` on a page edge, an edge with that source and target
is present. -/
theorem register_link_finds_page (s : WDC.DB) (su tu : String) :
    ((((WDC.register_link s su tu WDC.TargetType.page).2.page_network).find?
      (fun L => L.source_page_url == su && L.target_page_url == tu)).isSome) = true := by
  simp only [WDC.register_link]
  cases hfind : s.page_network.find?
      (fun L => L.source_page_url == su && L.target_page_url == tu) with
  | none =>
    dsimp only
    rw [find?_append_none _ _ _ hfind, List.find?_cons_of_pos _ (by simp)]
    rfl
  | some L =>
    dsimp only
    rw [find?_updateFirst s.page_network
      (fun L => L.source_page_url == su && L.target_page_url == tu)
      (fun L => { L with inactive := "" }) L hfind
      (by have := List.find?_some hfind; simpa using this)]
    rfl

theorem register_link_finds_asset (s : WDC.DB) (su tu : String) :
    ((((WDC.register_link s su tu WDC.TargetType.asset).2.asset_network).find?
      (fun L => L.source_page_url == su && L.target_asset_url == tu)).isSome) = true := by
  simp only [WDC.register_link]
  cases hfind : s.asset_network.find?
      (fun L => L.source_page_url == su && L.target_asset_url == tu) with
  | none =>
    dsimp only
    rw [find?_append_none _ _ _ hfind, List.find?_cons_of_pos _ (by simp)]
    rfl
  | some L =>
    dsimp only
    rw [find?_updateFirst s.asset_network
      (fun L => L.source_page_url == su && L.target_asset_url == tu)
      (fun L => { L with inactive := "" }) L hfind
      (by have := List.find?_some hfind; simpa using this)]
    rfl

theorem register_asset_src (s : WDC.DB) (su au ty : String)
    (c en ex pth : Option String) (s1 : WDC.DB)
    (h : WDC.register_asset s (some su) au ty c en ex pth = some s1) :
    (s.pages.find? (fun p => p.page_url == su)).isSome = true := by
  simp only [WDC.register_asset] at h
  cases hfind : s.pages.find? (fun p => p.page_url == su) with
  | none => rw [hfind] at h; cases h
  | some sp => rfl

theorem register_asset_isSome (s : WDC.DB) (su au ty : String)
    (c en ex pth : Option String)
    (h : (s.pages.find? (fun p => p.page_url == su)).isSome = true) :
    (WDC.register_asset s (some su) au ty c en ex pth).isSome = true := by
  simp only [WDC.register_asset]
  cases hfind : s.pages.find? (fun p => p.page_url == su) with
  | none => rw [hfind] at h; cases h
  | some sp => rfl

theorem register_asset_pages (s : WDC.DB) (su au ty : String)
    (c en ex pth : Option String) (s1 : WDC.DB)
    (h : WDC.register_asset s (some su) au ty c en ex pth = some s1) :
    s1.pages = updateFirst s.pages (fun p => p.page_url == su)
      (fun p => if p.inactive ≠ "" then { p with inactive := "" } else p) := by
  simp only [WDC.register_asset] at h
  cases hfind : s.pages.find? (fun p => p.page_url == su) with
  | none => rw [hfind] at h; cases h
  | some sp =>
    rw [hfind] at h
    injection h with h
    rw [← h]

theorem register_asset_pages_post (s : WDC.DB) (su au ty : String)
    (c en ex pth : Option String) (s1 : WDC.DB)
    (h : WDC.register_asset s (some su) au ty c en ex pth = some s1) :
    (s1.pages.find? (fun p => p.page_url == su)).isSome = true := by
  have hsrc := register_asset_src s su au ty c en ex pth s1 h
  rw [register_asset_pages s su au ty c en ex pth s1 h]
  cases hfind : s.pages.find? (fun p => p.page_url == su) with
  | none => rw [hfind] at hsrc; cases hsrc
  | some sp =>
    rw [find?_updateFirst s.pages (fun p => p.page_url == su)
      (fun p => if p.inactive ≠ "" then { p with inactive := "" } else p) sp hfind
      (by
        have hx := List.find?_some hfind
        show ((if sp.inactive ≠ "" then { sp with inactive := "" } else sp) : WDC.Page).page_url == su
        rw [pageReact_url]; exact hx)]
    rfl

theorem register_asset_pages_length (s : WDC.DB) (su au ty : String)
    (c en ex pth : Option String) (s1 : WDC.DB)
    (h : WDC.register_asset s (some su) au ty c en ex pth = some s1) :
    s1.pages.length = s.pages.length := by
  rw [register_asset_pages s su au ty c en ex pth s1 h, updateFirst_length]

theorem register_asset_page_network (s : WDC.DB) (su : Option String)
    (au ty : String) (c en ex pth : Option String) (s1 : WDC.DB)
    (h : WDC.register_asset s su au ty c en ex pth = some s1) :
    s1.page_network = s.page_network := by
  simp only [WDC.register_asset] at h
  cases su with
  | none =>
    dsimp only at h
    injection h with h
    rw [← h]
  | some v =>
    dsimp only at h
    cases hfind : s.pages.find? (fun p => p.page_url == v) with
    | none => rw [hfind] at h; cases h
    | some sp =>
      rw [hfind] at h
      injection h with h
      rw [← h]

theorem register_asset_assets_find (s : WDC.DB) (su au ty : String)
    (c en ex pth : Option String) (s1 : WDC.DB)
    (h : WDC.register_asset s (some su) au ty c en ex pth = some s1) :
    ((s1.assets.find? (fun a => a.asset_url == au)).map (fun a => a.inactive))
      = some "" := by
  simp only [WDC.register_asset] at h
  cases hfindP : s.pages.find? (fun p => p.page_url == su) with
  | none => rw [hfindP] at h; cases h
  | some sp =>
    rw [hfindP] at h
    injection h with h
    rw [← h]
    dsimp only
    cases hfindA : s.assets.find? (fun a => a.asset_url == au) with
    | none =>
      dsimp only
      rw [find?_append_none _ _ _ hfindA, List.find?_cons_of_pos _ (by simp)]
      rfl
    | some a =>
      dsimp only
      rw [find?_updateFirst s.assets (fun a => a.asset_url == au)
        (fun a => if a.inactive ≠ "" then { a with inactive := "" } else a) a hfindA
        (by
          have hx := List.find?_some hfindA
          show ((if a.inactive ≠ "" then { a with inactive := "" } else a) : WDC.Asset).asset_url == au
          rw [assetReact_url]; exact hx)]
      show some (((if a.inactive ≠ "" then { a with inactive := "" } else a) : WDC.Asset).inactive)
        = some ""
      rw [assetReact_inactive]

theorem register_asset_assets_length_of_found (s : WDC.DB) (su au ty : String)
    (c en ex pth : Option String) (s1 : WDC.DB)
    (h : WDC.register_asset s (some su) au ty c en ex pth = some s1)
    (hA : (s.assets.find? (fun a => a.asset_url == au)).isSome = true) :
    s1.assets.length = s.assets.length := by
  simp only [WDC.register_asset] at h
  cases hfindP : s.pages.find? (fun p => p.page_url == su) with
  | none => rw [hfindP] at h; cases h
  | some sp =>
    rw [hfindP] at h
    injection h with h
    rw [← h]
    dsimp only
    cases hfindA : s.assets.find? (fun a => a.asset_url == au) with
    | none => rw [hfindA] at hA; cases hA
    | some a =>
      dsimp only
      rw [updateFirst_length]

theorem register_asset_link_exists (s : WDC.DB) (su au ty : String)
    (c en ex pth : Option String) (s1 : WDC.DB)
    (h : WDC.register_asset s (some su) au ty c en ex pth = some s1) :
    ∃ L ∈ s1.asset_network,
      (L.source_page_url == su && L.target_asset_url == au) = true := by
  simp only [WDC.register_asset] at h
  cases hfindP : s.pages.find? (fun p => p.page_url == su) with
  | none => rw [hfindP] at h; cases h
  | some sp =>
    have hsp : sp.page_url = su := by simpa using List.find?_some hfindP
    rw [hfindP] at h
    injection h with h
    rw [← h]
    dsimp only
    cases hfindL : s.asset_network.find?
        (fun L => L.source_page_url == sp.page_url && L.target_asset_url == au) with
    | none =>
      dsimp only
      refine ⟨{ link_id := s.asset_network.length, source_page_url := sp.page_url,
                target_asset_url := au, inactive := "" }, by simp, ?_⟩
      simp [hsp]
    | some L =>
      dsimp only
      have hfu := find?_updateFirst s.asset_network
        (fun L => L.source_page_url == sp.page_url && L.target_asset_url == au)
        (fun L => if L.inactive ≠ "" then { L with inactive := "" } else L) L hfindL
        (by
          have h1 := (alinkReact_fields L).1
          have h2 := (alinkReact_fields L).2.1
          show ((if L.inactive ≠ "" then { L with inactive := "" } else L) : WDC.AssetLink).source_page_url == sp.page_url
            && ((if L.inactive ≠ "" then { L with inactive := "" } else L) : WDC.AssetLink).target_asset_url == au
          rw [h1, h2]
          have hx := List.find?_some hfindL
          exact hx)
      refine ⟨_, List.mem_of_find?_eq_some hfu, ?_⟩
      have := List.find?_some hfu
      simpa [hsp] using this

theorem register_asset_network_length_of_found (s : WDC.DB) (su au ty : String)
    (c en ex pth : Option String) (s1 : WDC.DB)
    (h : WDC.register_asset s (some su) au ty c en ex pth = some s1)
    (hL : ∃ L ∈ s.asset_network,
      (L.source_page_url == su && L.target_asset_url == au) = true) :
    s1.asset_network.length = s.asset_network.length := by
  simp only [WDC.register_asset] at h
  cases hfindP : s.pages.find? (fun p => p.page_url == su) with
  | none => rw [hfindP] at h; cases h
  | some sp =>
    have hsp : sp.page_url = su := by simpa using List.find?_some hfindP
    rw [hfindP] at h
    injection h with h
    rw [← h]
    dsimp only
    obtain ⟨L, hm, hp⟩ := hL
    have hsome : (s.asset_network.find?
        (fun L => L.source_page_url == sp.page_url && L.target_asset_url == au)).isSome
        = true := by
      refine find?_isSome_of_mem _ _ L hm ?_
      rw [hsp]
      exact hp
    cases hfindL : s.asset_network.find?
        (fun L => L.source_page_url == sp.page_url && L.target_asset_url == au) with
    | none => rw [hfindL] at hsome; cases hsome
    | some L' =>
      dsimp only
      rw [updateFirst_length]

/-- C4: registering the same page, asset or link twice in a row with
identical arguments leaves the Page, Asset and link-row counts exactly as
after the first call and leaves the affected entity's tombstone cleared; a
rediscovered (possibly tombstoned) page is reactivated in place, never
duplicated. -/
theorem registration_idempotent :
    (∀ (s : WDC.DB) (url : String) (c p : Option String),
      (WDC.register_page (WDC.register_page s url c p) url c p).pages.length
        = (WDC.register_page s url c p).pages.length ∧
      (WDC.register_page (WDC.register_page s url c p) url c p).assets
        = (WDC.register_page s url c p).assets ∧
      (WDC.register_page (WDC.register_page s url c p) url c p).page_network
        = (WDC.register_page s url c p).page_network ∧
      (WDC.register_page (WDC.register_page s url c p) url c p).asset_network
        = (WDC.register_page s url c p).asset_network ∧
      (((WDC.register_page (WDC.register_page s url c p) url c p).pages.find?
          (fun q => q.page_url == url)).map (fun q => q.inactive)) = some "") ∧
    (∀ (s : WDC.DB) (su au ty : String) (c en ex pth : Option String) (s1 : WDC.DB),
      WDC.register_asset s (some su) au ty c en ex pth = some s1 →
      ∃ s2, WDC.register_asset s1 (some su) au ty c en ex pth = some s2 ∧
        s2.pages.length = s1.pages.length ∧
        s2.assets.length = s1.assets.length ∧
        s2.page_network = s1.page_network ∧
        s2.asset_network.length = s1.asset_network.length ∧
        ((s2.assets.find? (fun a => a.asset_url == au)).map (fun a => a.inactive))
          = some "") ∧
    (∀ (s : WDC.DB) (su tu : String) (ty : WDC.TargetType),
      (WDC.register_link ((WDC.register_link s su tu ty).2) su tu ty).1 = false ∧
      (WDC.register_link ((WDC.register_link s su tu ty).2) su tu ty).2.pages
        = (WDC.register_link s su tu ty).2.pages ∧
      (WDC.register_link ((WDC.register_link s su tu ty).2) su tu ty).2.assets
        = (WDC.register_link s su tu ty).2.assets ∧
      (WDC.register_link ((WDC.register_link s su tu ty).2) su tu ty).2.page_network.length
        = (WDC.register_link s su tu ty).2.page_network.length ∧
      (WDC.register_link ((WDC.register_link s su tu ty).2) su tu ty).2.asset_network.length
        = (WDC.register_link s su tu ty).2.asset_network.length) ∧
    (∀ (s : WDC.DB) (url : String) (c p : Option String),
      (∃ q ∈ s.pages, q.page_url = url) →
      (WDC.register_page s url c p).pages.length = s.pages.length ∧
      (((WDC.register_page s url c p).pages.find? (fun q => q.page_url == url)).map
        (fun q => q.inactive)) = some "") := by
  refine ⟨?_, ?_, ?_, ?_⟩
  · intro s url c p
    generalize hs1 : WDC.register_page s url c p = s1
    have hf : ((s1.pages.find? (fun q => q.page_url == url)).map
        (fun q => q.inactive)) = some "" := by
      rw [← hs1]; exact register_page_find s url c p
    have hsome : (s1.pages.find? (fun q => q.page_url == url)).isSome = true := by
      cases hx : s1.pages.find? (fun q => q.page_url == url)
      · rw [hx] at hf; cases hf
      · rfl
    exact ⟨register_page_pages_length_of_found s1 url c p hsome, rfl, rfl, rfl,
      register_page_find s1 url c p⟩
  · intro s su au ty c en ex pth s1 h1
    have hps := register_asset_pages_post s su au ty c en ex pth s1 h1
    have hsome2 := register_asset_isSome s1 su au ty c en ex pth hps
    obtain ⟨s2, h2⟩ := Option.isSome_iff_exists.mp hsome2
    refine ⟨s2, h2, register_asset_pages_length s1 su au ty c en ex pth s2 h2, ?_,
      register_asset_page_network s1 (some su) au ty c en ex pth s2 h2, ?_,
      register_asset_assets_find s1 su au ty c en ex pth s2 h2⟩
    · have hf := register_asset_assets_find s su au ty c en ex pth s1 h1
      have hsomeA : (s1.assets.find? (fun a => a.asset_url == au)).isSome = true := by
        cases hx : s1.assets.find? (fun a => a.asset_url == au)
        · rw [hx] at hf; cases hf
        · rfl
      exact register_asset_assets_length_of_found s1 su au ty c en ex pth s2 h2 hsomeA
    · exact register_asset_network_length_of_found s1 su au ty c en ex pth s2 h2
        (register_asset_link_exists s su au ty c en ex pth s1 h1)
  · intro s su tu ty
    cases ty with
    | page =>
      generalize hs1 : (WDC.register_link s su tu WDC.TargetType.page).2 = s1
      have hfound : ((s1.page_network.find?
          (fun L => L.source_page_url == su && L.target_page_url == tu)).isSome) = true := by
        rw [← hs1]; exact register_link_finds_page s su tu
      cases hfind2 : s1.page_network.find?
          (fun L => L.source_page_url == su && L.target_page_url == tu) with
      | none => rw [hfind2] at hfound; cases hfound
      | some L =>
        simp only [WDC.register_link]
        rw [hfind2]
        dsimp only
        exact ⟨rfl, rfl, rfl, updateFirst_length _ _ _, rfl⟩
    | asset =>
      generalize hs1 : (WDC.register_link s su tu WDC.TargetType.asset).2 = s1
      have hfound : ((s1.asset_network.find?
          (fun L => L.source_page_url == su && L.target_asset_url == tu)).isSome) = true := by
        rw [← hs1]; exact register_link_finds_asset s su tu
      cases hfind2 : s1.asset_network.find?
          (fun L => L.source_page_url == su && L.target_asset_url == tu) with
      | none => rw [hfind2] at hfound; cases hfound
      | some L =>
        simp only [WDC.register_link]
        rw [hfind2]
        dsimp only
        exact ⟨rfl, rfl, rfl, rfl, updateFirst_length _ _ _⟩
  · intro s url c p hex
    have hsome : (s.pages.find? (fun q => q.page_url == url)).isSome = true := by
      obtain ⟨q, hq, hurl⟩ := hex
      exact find?_isSome_of_mem _ _ q hq (by simp [hurl])
    exact ⟨register_page_pages_length_of_found s url c p hsome,
      register_page_find s url c p⟩

/-- Witness for `registration_idempotent`. -/
theorem registration_idempotent_witness :
    ((WDC.register_page exPageDB "http://ex.test/" none none).pages.length
        = exPageDB.pages.length) ∧
    (∃ s2, WDC.register_asset exAssetRegistered (some "http://ex.test/")
        "http://ex.test/img.png" "image/png" none none none none = some s2 ∧
      s2.pages.length = exAssetRegistered.pages.length ∧
      s2.assets.length = exAssetRegistered.assets.length ∧
      s2.page_network = exAssetRegistered.page_network ∧
      s2.asset_network.length = exAssetRegistered.asset_network.length ∧
      ((s2.assets.find? (fun a => a.asset_url == "http://ex.test/img.png")).map
        (fun a => a.inactive)) = some "") := by
  constructor
  · exact (registration_idempotent.2.2.2 exPageDB "http://ex.test/" none none
      ⟨{ page_id := 0, page_url := "http://ex.test/", inactive := "x" }, by decide, rfl⟩).1
  · exact registration_idempotent.2.1 exPageDB "http://ex.test/" "http://ex.test/img.png"
      "image/png" none none none none exAssetRegistered (by decide)

/-- C6 counterexample: with every response a 404 and no proxy configured, the
rotation still fails and the crawl moves on, but the failed set is unchanged
(empty) — the URL is never added to it, contrary to the claim. -/
theorem non200_not_failed_cex :
    (RWA.handle_next_page_status none (fun _ => 404) []).finalStatus = 404 ∧
    (RWA.handle_next_page_status none (fun _ => 404) []).processed = false ∧
    (RWA.handle_next_page_status none (fun _ => 404) []).failed = [] := by decide

/-- C6 (amended): on a non-200 status the engine attempts identity rotation —
one request with the fixed alternate user-agent, plus one fresh-proxy request
exactly when that is still non-200 and the proxy mode is the string
`"random"` (and, when the alternate-user-agent request returns 200, one
further request with a random user-agent whose response is the one used); if
the final response is still not 200, the URL is *not* added to the failed set
— the page is merely skipped (not processed) and the crawl continues; the URL
is nonetheless not retried this run, because the following `get_next_url`
call with it as current URL marks every inbound edge followed. -/
theorem non200_rotation_spec :
    (∀ (proxies : Option String) (fetch : Nat → Nat) (failed : List String),
      (RWA.handle_next_page_status proxies fetch failed).failed = failed ∧
      (fetch 0 ≠ 200 →
        (RWA.handle_next_page_status proxies fetch failed).rotation
          = some (RWA.retry_with_new_identity proxies (fun k => fetch (k + 1)))) ∧
      (fetch 0 = 200 →
        (RWA.handle_next_page_status proxies fetch failed).rotation = none ∧
        (RWA.handle_next_page_status proxies fetch failed).processed = true) ∧
      ((RWA.handle_next_page_status proxies fetch failed).finalStatus ≠ 200 →
        (RWA.handle_next_page_status proxies fetch failed).processed = false)) ∧
    (∀ (proxies : Option String) (fetch : Nat → Nat),
      ((RWA.retry_with_new_identity proxies fetch).proxyRefreshed = true ↔
        (fetch 0 ≠ 200 ∧ proxies = some "random")) ∧
      (fetch 0 ≠ 200 → proxies ≠ some "random" →
        RWA.retry_with_new_identity proxies fetch =
          { status := fetch 0, requestsMade := 1, proxyRefreshed := false,
            randomUaFetch := false }) ∧
      (fetch 0 = 200 →
        (RWA.retry_with_new_identity proxies fetch).randomUaFetch = true ∧
        (RWA.retry_with_new_identity proxies fetch).status = fetch 1)) ∧
    (∀ (s : WDC.DB) (u : String),
      ∀ e ∈ (WDC.get_next_url s u).2.page_network,
        e.target_page_url = u → e.followed = true) := by
  refine ⟨?_, ?_, get_next_url_marks_current⟩
  · intro proxies fetch failed
    simp only [RWA.handle_next_page_status]
    by_cases h0 : fetch 0 = 200
    · rw [if_pos h0]
      exact ⟨rfl, fun hne => absurd h0 hne, fun _ => ⟨rfl, rfl⟩,
        fun hne => absurd rfl hne⟩
    · rw [if_neg h0]
      refine ⟨rfl, fun _ => rfl, fun he => absurd he h0, ?_⟩
      intro hne
      simp [hne]
  · intro proxies fetch
    simp only [RWA.retry_with_new_identity]
    by_cases h0 : fetch 0 = 200
    · rw [if_neg (fun hc => hc.1 h0), if_neg (fun hc => hc h0)]
      exact ⟨by simp [h0], fun hne => absurd h0 hne, fun _ => ⟨rfl, rfl⟩⟩
    · by_cases hpx : proxies = some "random"
      · rw [if_pos ⟨h0, hpx⟩]
        exact ⟨by simp [h0, hpx], fun _ hne => absurd hpx hne,
          fun he => absurd he h0⟩
      · rw [if_neg (fun hc => hpx hc.2), if_pos h0]
        exact ⟨by simp [hpx], fun _ _ => rfl, fun he => absurd he h0⟩

/-- Witness for `non200_rotation_spec`. -/
theorem non200_rotation_spec_witness :
    (RWA.retry_with_new_identity (some "torsocks") (fun _ => 403) =
      { status := 403, requestsMade := 1, proxyRefreshed := false,
        randomUaFetch := false }) ∧
    (RWA.handle_next_page_status none (fun _ => 503) ["w"]).processed = false := by
  constructor
  · exact (non200_rotation_spec.2.1 (some "torsocks") (fun _ => 403)).2.1
      (by decide) (by decide)
  · exact (non200_rotation_spec.1 none (fun _ => 503) ["w"]).2.2.2 (by decide)

end SapAssistant
